import Mathlib

/-!
Verification development for the goldbot-ai-langchain repository.

This file gives a shallow embedding, in Lean 4, of the tool-execution layer
of the repository: the sandboxed arithmetic evaluator (calculation tool),
the result formatter, the spot-price tool, the weight-value tool, the
historical-data tool (relative-period parsing, date resolution, growth
calculation), the time-chart-data tool, the chat orchestrator and the chat
HTTP route.  JavaScript numbers are modelled by exact rationals (ℚ),
extended with infinities and NaN where the code can produce them;
JavaScript strings by Lean strings compared by code unit; fallible
steps by Option/Except.  External effects (HTTP fetch, file system,
environment variables, the LLM provider) are passed in as explicit
arguments describing their outcome.
-/

namespace Goldbot

/-! ## Basic character and digit utilities -/

/-- The operator characters of the calculation tool (`+ - * /`). -/
def isOpChar (c : Char) : Bool :=
  c = '+' || c = '-' || c = '*' || c = '/'

/-- Characters accepted by the calculation tool charset regex
`^[0-9+\-*/.()]+$` (src lib/tools/calculation/execute.ts). -/
def allowedChar (c : Char) : Bool :=
  c.isDigit || isOpChar c || c = '.' || c = '(' || c = ')'

/-- `expression.replace(/\s+/g, '')`: remove all whitespace. -/
def stripWs (cs : List Char) : List Char :=
  cs.filter (fun c => !c.isWhitespace)

/-- `s.trim()`: remove leading and trailing whitespace. -/
def trimStr (s : String) : String :=
  ⟨((s.data.dropWhile Char.isWhitespace).reverse.dropWhile Char.isWhitespace).reverse⟩

/-- `s.toLowerCase()` (ASCII). -/
def toLowerStr (s : String) : String := ⟨s.data.map Char.toLower⟩

/-- Numeric value of a decimal digit string, most significant first
(the semantics of JavaScript `parseInt(s, 10)` on an all-digit string). -/
def digitsToNat (ds : List Char) : ℕ :=
  ds.foldl (fun a c => 10 * a + (c.toNat - 48)) 0

/-- Split a maximal leading run of decimal digits off a character list. -/
def readDigits : List Char → List Char × List Char
  | [] => ([], [])
  | c :: cs =>
    if c.isDigit then
      let p := readDigits cs
      (c :: p.1, p.2)
    else ([], c :: cs)

/-! ## The validation checks of `safeEvaluate`
(src lib/tools/calculation/execute.ts, function safeEvaluate) -/

/-- The charset test `/^[0-9+\-*/.()]+$/.test(cleaned)`. -/
def charsetOk (cs : List Char) : Bool :=
  !cs.isEmpty && cs.all allowedChar

/-- The parenthesis counter loop: count never drops below zero and ends
at zero. -/
def parenScan : List Char → Int → Bool
  | [], n => n = 0
  | c :: cs, n =>
    let n' : Int := if c = '(' then n + 1 else if c = ')' then n - 1 else n
    if n' < 0 then false else parenScan cs n'

def parensBalanced (cs : List Char) : Bool := parenScan cs 0

/-- The test `/[+\-*\/]{2,}(?![0-9])/.test(cleaned)`.  The regex finds a run
of at least two operator characters not immediately followed by a digit.
Backtracking over the run length makes this equivalent to: some adjacent
pair of operator characters is followed by end-of-string or a non-digit
(for a run of length ≥ 3 the character after an inner pair is itself an
operator, hence not a digit). -/
def invalidOps : List Char → Bool
  | a :: b :: rest =>
    (isOpChar a && isOpChar b &&
      (match rest with
       | [] => true
       | c :: _ => !c.isDigit)) || invalidOps (b :: rest)
  | _ => false

/-! ## JavaScript numbers: finite rational, infinities, NaN

The evaluator runs `Function("'use strict'; return (" + cleaned + ")")()`.
We model the resulting JavaScript number algebra over exact rationals,
represented as unnormalized fractions (integer numerator, positive natural
denominator) so that evaluation is kernel-computable; `Frac.toRat` gives
the rational value.  Model limitations (documented, all outside any
claim's inputs): there is no signed zero, no double overflow/rounding,
and `**` with a non-integer exponent and non-negative base (an irrational
result in general) is modelled as NaN. -/

structure Frac where
  num : ℤ
  den : ℕ
deriving DecidableEq

namespace Frac

def toRat (f : Frac) : ℚ := (f.num : ℚ) / (f.den : ℚ)

def zero : Frac := ⟨0, 1⟩

def one : Frac := ⟨1, 1⟩

def isZero (f : Frac) : Bool := f.num = 0

def isNeg (f : Frac) : Bool := f.num < 0

/-- The value is an integer (denominator divides numerator). -/
def isInt (f : Frac) : Bool := f.num % (f.den : ℤ) = 0

def toInt (f : Frac) : ℤ := f.num / (f.den : ℤ)

def absGtOne (f : Frac) : Bool := f.den < f.num.natAbs

def absEqOne (f : Frac) : Bool := f.num.natAbs = f.den

def neg (f : Frac) : Frac := ⟨-f.num, f.den⟩

def add (a b : Frac) : Frac := ⟨a.num * b.den + b.num * a.den, a.den * b.den⟩

def mul (a b : Frac) : Frac := ⟨a.num * b.num, a.den * b.den⟩

/-- Division, for a divisor with nonzero numerator. -/
def div (a b : Frac) : Frac :=
  ⟨a.num * b.den * (if b.num < 0 then -1 else 1), a.den * b.num.natAbs⟩

/-- Integer power (for a negative exponent the numerator must be nonzero,
which the caller guards). -/
def powInt (f : Frac) (n : ℤ) : Frac :=
  if 0 ≤ n then ⟨f.num ^ n.toNat, f.den ^ n.toNat⟩
  else
    ⟨(if f.num < 0 ∧ (-n).toNat % 2 = 1 then -1 else 1) * (f.den : ℤ) ^ (-n).toNat,
      f.num.natAbs ^ (-n).toNat⟩

end Frac

inductive ExtQ where
  | fin (q : Frac)
  | pinf
  | ninf
  | nan
deriving DecidableEq

namespace ExtQ

def neg : ExtQ → ExtQ
  | fin q => fin q.neg
  | pinf => ninf
  | ninf => pinf
  | nan => nan

def add : ExtQ → ExtQ → ExtQ
  | fin a, fin b => fin (a.add b)
  | fin _, pinf => pinf
  | fin _, ninf => ninf
  | pinf, fin _ => pinf
  | ninf, fin _ => ninf
  | pinf, pinf => pinf
  | ninf, ninf => ninf
  | pinf, ninf => nan
  | ninf, pinf => nan
  | _, _ => nan

def sub (a b : ExtQ) : ExtQ := add a (neg b)

def mul : ExtQ → ExtQ → ExtQ
  | fin a, fin b => fin (a.mul b)
  | fin a, pinf => if a.isZero then nan else if a.isNeg then ninf else pinf
  | fin a, ninf => if a.isZero then nan else if a.isNeg then pinf else ninf
  | pinf, fin b => if b.isZero then nan else if b.isNeg then ninf else pinf
  | ninf, fin b => if b.isZero then nan else if b.isNeg then pinf else ninf
  | pinf, pinf => pinf
  | ninf, ninf => pinf
  | pinf, ninf => ninf
  | ninf, pinf => ninf
  | _, _ => nan

def div : ExtQ → ExtQ → ExtQ
  | fin a, fin b =>
    if b.isZero then (if a.isZero then nan else if a.isNeg then ninf else pinf)
    else fin (a.div b)
  | fin _, pinf => fin Frac.zero
  | fin _, ninf => fin Frac.zero
  | pinf, fin b => if b.isNeg then ninf else pinf
  | ninf, fin b => if b.isNeg then pinf else ninf
  | _, _ => nan

/-- JavaScript exponentiation `**` (ES Number::exponentiate), restricted to
the rational model.  `nan ** 0 = 1` as in JavaScript.  A non-integer
exponent with a non-negative finite base (an irrational result in general)
is modelled as NaN; with a negative base JavaScript itself yields NaN. -/
def pow : ExtQ → ExtQ → ExtQ
  | nan, fin e => if e.isZero then fin Frac.one else nan
  | fin b, fin e =>
    if e.isZero then fin Frac.one
    else if e.isInt then
      (if b.isZero ∧ e.toInt < 0 then pinf else fin (b.powInt e.toInt))
    else nan
  | pinf, fin e =>
    if e.isZero then fin Frac.one
    else if e.isNeg then fin Frac.zero
    else pinf
  | ninf, fin e =>
    if e.isZero then fin Frac.one
    else if e.isNeg then fin Frac.zero
    else if e.isInt ∧ e.toInt % 2 = 1 then ninf
    else pinf
  | nan, _ => nan
  | _, nan => nan
  | fin q, pinf => if q.absGtOne then pinf else if q.absEqOne then nan else fin Frac.zero
  | fin q, ninf => if q.absGtOne then fin Frac.zero else if q.absEqOne then nan else pinf
  | pinf, pinf => pinf
  | ninf, pinf => pinf
  | pinf, ninf => fin Frac.zero
  | ninf, ninf => fin Frac.zero

end ExtQ


/-! ## Tokenizing the cleaned expression

Strict-mode JavaScript lexing of the allowed charset, with maximal munch:
`--` and `++` lex as update operators (always a syntax error on numeric
operands), `**` as exponentiation, `//` starts a line comment (which, the
expression being spliced into `return (...)` on a single line, swallows
the closing parenthesis — always a syntax error), `/*` starts a block
comment, and numeric literals may not have a leading zero before another
digit (legacy octal is a strict-mode syntax error). -/

inductive Tok where
  | num (q : Frac)
  | plus
  | minus
  | star
  | slash
  | dstar
  | lparen
  | rparen
deriving DecidableEq

/-- Leading-zero test for a strict-mode integer-part digit run. -/
def leadingZeroBad : List Char → Bool
  | '0' :: _ :: _ => true
  | _ => false

/-- Read one JavaScript numeric literal (digits, optional dot, digits).
Returns its exact rational value and the rest of the input. -/
def readNumber (cs : List Char) : Option (Frac × List Char) :=
  let p := readDigits cs
  let ip := p.1
  match p.2 with
  | '.' :: r2 =>
    let q := readDigits r2
    if ip.isEmpty && q.1.isEmpty then none
    else if leadingZeroBad ip then none
    else
      some (⟨(digitsToNat ip : ℤ) * 10 ^ q.1.length + digitsToNat q.1, 10 ^ q.1.length⟩,
        q.2)
  | r1 =>
    if ip.isEmpty then none
    else if leadingZeroBad ip then none
    else some (⟨(digitsToNat ip : ℤ), 1⟩, r1)

/-- Skip to just past the first `*/`; `none` if the comment is unterminated
(a syntax error). -/
def skipComment : List Char → Option (List Char)
  | '*' :: '/' :: cs => some cs
  | _ :: cs => skipComment cs
  | [] => none

/-- Tokenize; fuel decreases once per token or comment, each of which
consumes at least one character, so `cs.length + 1` fuel always suffices. -/
def tokenize : ℕ → List Char → Option (List Tok)
  | _, [] => some []
  | 0, _ :: _ => none
  | f + 1, '+' :: cs =>
    match cs with
    | '+' :: _ => none
    | _ => (tokenize f cs).map (Tok.plus :: ·)
  | f + 1, '-' :: cs =>
    match cs with
    | '-' :: _ => none
    | _ => (tokenize f cs).map (Tok.minus :: ·)
  | f + 1, '*' :: cs =>
    match cs with
    | '*' :: cs' => (tokenize f cs').map (Tok.dstar :: ·)
    | _ => (tokenize f cs).map (Tok.star :: ·)
  | f + 1, '/' :: cs =>
    match cs with
    | '/' :: _ => none
    | '*' :: cs' =>
      match skipComment cs' with
      | some r => tokenize f r
      | none => none
    | _ => (tokenize f cs).map (Tok.slash :: ·)
  | f + 1, '(' :: cs => (tokenize f cs).map (Tok.lparen :: ·)
  | f + 1, ')' :: cs => (tokenize f cs).map (Tok.rparen :: ·)
  | f + 1, c :: cs =>
    if c.isDigit || c = '.' then
      match readNumber (c :: cs) with
      | some (q, r) => (tokenize f r).map (Tok.num q :: ·)
      | none => none
    else none

/-! ## Recursive-descent parser/evaluator over the token list

Grammar of strict-mode JavaScript expressions over these tokens:
additive over multiplicative over exponentiation (right associative,
with a unary-minus/plus operand forbidden as an unparenthesized base)
over unary over primary (numeric literal or parenthesized expression).
Fuel decreases on every recursive call. -/

mutual

def parseLevel : ℕ → ℕ → List Tok → Option (ExtQ × List Tok)
  | 0, _, _ => none
  | f + 1, 0, toks =>
    -- primary
    match toks with
    | Tok.num q :: ts => some (ExtQ.fin q, ts)
    | Tok.lparen :: ts =>
      match parseLevel f 4 ts with
      | some (v, Tok.rparen :: r) => some (v, r)
      | _ => none
    | _ => none
  | f + 1, 1, toks =>
    -- unary: sign chain over a primary
    match toks with
    | Tok.minus :: ts => (parseLevel f 1 ts).map (fun p => (p.1.neg, p.2))
    | Tok.plus :: ts => parseLevel f 1 ts
    | _ => parseLevel f 0 toks
  | f + 1, 2, toks =>
    -- exponentiation
    match toks with
    | Tok.minus :: _ =>
      match parseLevel f 1 toks with
      | some (_, Tok.dstar :: _) => none
      | r => r
    | Tok.plus :: _ =>
      match parseLevel f 1 toks with
      | some (_, Tok.dstar :: _) => none
      | r => r
    | _ =>
      match parseLevel f 0 toks with
      | some (v, Tok.dstar :: ts) =>
        (parseLevel f 2 ts).map (fun p => (ExtQ.pow v p.1, p.2))
      | r => r
  | f + 1, 3, toks =>
    -- multiplicative, left associative
    match parseLevel f 2 toks with
    | some (v, rest) => mulLoop f v rest
    | none => none
  | f + 1, 4, toks =>
    -- additive, left associative
    match parseLevel f 3 toks with
    | some (v, rest) => addLoop f v rest
    | none => none
  | _ + 1, _ + 5, _ => none

def mulLoop : ℕ → ExtQ → List Tok → Option (ExtQ × List Tok)
  | 0, _, _ => none
  | f + 1, v, Tok.star :: ts =>
    match parseLevel f 2 ts with
    | some (w, r) => mulLoop f (ExtQ.mul v w) r
    | none => none
  | f + 1, v, Tok.slash :: ts =>
    match parseLevel f 2 ts with
    | some (w, r) => mulLoop f (ExtQ.div v w) r
    | none => none
  | _ + 1, v, ts => some (v, ts)

def addLoop : ℕ → ExtQ → List Tok → Option (ExtQ × List Tok)
  | 0, _, _ => none
  | f + 1, v, Tok.plus :: ts =>
    match parseLevel f 3 ts with
    | some (w, r) => addLoop f (ExtQ.add v w) r
    | none => none
  | f + 1, v, Tok.minus :: ts =>
    match parseLevel f 3 ts with
    | some (w, r) => addLoop f (ExtQ.sub v w) r
    | none => none
  | _ + 1, v, ts => some (v, ts)

end

/-- Evaluate a cleaned character list as a strict-mode JavaScript
expression; `none` on any syntax error. -/
def jsEvaluate (cs : List Char) : Option ExtQ :=
  match tokenize (cs.length + 1) cs with
  | none => none
  | some toks =>
    match parseLevel (8 * toks.length + 16) 4 toks with
    | some (v, []) => some v
    | _ => none

/-! ## safeEvaluate and the calculation tool
(src lib/tools/calculation/execute.ts) -/

/-- The `safeEvaluate` function: whitespace removal, the three validation
checks, then sandboxed evaluation with a finiteness check on the result. -/
def safeEvaluate (s : String) : Except String Frac :=
  let cleaned := stripWs s.data
  if !charsetOk cleaned then
    .error "Expression contains invalid characters. Only numbers and operators (+, -, *, /, parentheses) are allowed."
  else if !parensBalanced cleaned then
    .error "Unbalanced parentheses"
  else if invalidOps cleaned then
    .error "Invalid operator sequence"
  else
    match jsEvaluate cleaned with
    | some (ExtQ.fin q) => .ok q
    | _ => .error "Failed to evaluate expression"

/-- Abstract content of the string built by `formatResult`: which notation
was used, and the numeric value the formatted string denotes when read
back (grouping separators ignored). -/
structure Formatted where
  isExponential : Bool
  value : ℚ
deriving DecidableEq

/-- `Math.round`-style half-up rounding to an integer. -/
def roundHalfUp (x : ℚ) : ℤ := ⌊x + 1 / 2⌋

/-- Round to 4 fraction digits, half away from zero (the default
`Intl.NumberFormat` "halfExpand" rounding used by `toLocaleString`). -/
def round4Away (v : ℚ) : ℚ :=
  if 0 ≤ v then (roundHalfUp (v * 10 ^ 4) : ℚ) / 10 ^ 4
  else -((roundHalfUp (-v * 10 ^ 4) : ℚ) / 10 ^ 4)

/-- `⌊log₁₀ a⌋` for a positive rational, computably. -/
def log10Floor (a : ℚ) : ℤ :=
  if 1 ≤ a then (Nat.log 10 ⌊a⌋.toNat : ℤ)
  else -(Nat.clog 10 ⌈1 / a⌉.toNat : ℤ)

/-- Value denoted by `value.toExponential(4)`: the magnitude's mantissa
rounded half-up to 4 fraction digits, times sign and power of ten. -/
def expRound (v : ℚ) : ℚ :=
  let a := |v|
  let e := log10Floor a
  let m := a / (10 : ℚ) ^ e
  let m' := (roundHalfUp (m * 10 ^ 4) : ℚ) / 10 ^ 4
  (if v < 0 then -1 else 1) * m' * (10 : ℚ) ^ e

/-- The `formatResult` function: exponential notation for magnitudes
≥ 1e6 or nonzero < 0.01, otherwise locale formatting with at most 4
fraction digits. -/
def formatResult (v : ℚ) : Formatted :=
  if 1000000 ≤ |v| ∨ (|v| < 1 / 100 ∧ v ≠ 0) then ⟨true, expRound v⟩
  else ⟨false, round4Away v⟩

structure CalcData where
  expression : String
  result : Frac
  description : String
  formattedResult : Formatted

structure CalculationResult where
  success : Bool
  data : Option CalcData
  error : Option String

/-- `executeCalculationTool` (src lib/tools/calculation/execute.ts). -/
def executeCalculationTool (expression description : String) : CalculationResult :=
  if (trimStr expression).length = 0 then
    ⟨false, none, some "Expression cannot be empty"⟩
  else if (trimStr description).length = 0 then
    ⟨false, none, some "Description cannot be empty"⟩
  else
    match safeEvaluate expression with
    | .ok r =>
      ⟨true, some ⟨trimStr expression, r, trimStr description, formatResult r.toRat⟩, none⟩
    | .error e => ⟨false, none, some e⟩

/-! ## Spec-side predicates for the evaluator's validation (claim C2)

These follow the specification's wording independently of the code's
scan/regex implementations, so that the acceptance characterization is
not a restatement of `safeEvaluate`. -/

/-- Spec wording: "only digits, `.`, and `+ - * / ( )`". -/
def specAllowedChar (c : Char) : Bool :=
  c.isDigit || c = '.' || c = '+' || c = '-' || c = '*' || c = '/' || c = '(' || c = ')'

def specCharsOnly (cs : List Char) : Bool :=
  !cs.isEmpty && cs.all specAllowedChar

/-- Spec wording: balanced parentheses — every prefix has at least as many
opening as closing parentheses, and the totals agree. -/
def specBalanced (cs : List Char) : Bool :=
  ((List.range (cs.length + 1)).all fun k =>
    (cs.take k).count ')' ≤ (cs.take k).count '(') &&
  cs.count '(' = cs.count ')'

/-- Spec wording (claim): no two adjacent operator characters. -/
def specNoDoubleOps (cs : List Char) : Bool :=
  (cs.zip cs.tail).all fun p => !(isOpChar p.1 && isOpChar p.2)

/-- What the claim says the evaluator accepts. -/
def specAccepts (s : String) : Bool :=
  let c := stripWs s.data
  specCharsOnly c && specBalanced c && specNoDoubleOps c

/-- What the operator-sequence check actually rejects: some adjacent
operator pair followed by end-of-input or a non-digit (out-of-range reads
use the non-digit placeholder 'x'). -/
def specOpsOk (cs : List Char) : Bool :=
  (List.range cs.length).all fun i =>
    !(decide (i + 1 < cs.length) && isOpChar (cs.getD i 'x') &&
      isOpChar (cs.getD (i + 1) 'x') && !(cs.getD (i + 2) 'x').isDigit)

/-- An adjacent operator pair followed by end-of-input or a non-digit. -/
def BadPair (cs : List Char) : Prop :=
  ∃ i, i + 1 < cs.length ∧ isOpChar (cs.getD i 'x') = true ∧
    isOpChar (cs.getD (i + 1) 'x') = true ∧ (cs.getD (i + 2) 'x').isDigit = false

/-! ### Equivalence of the code's checks with the spec-side predicates -/

theorem allowedChar_eq_spec (c : Char) : allowedChar c = specAllowedChar c := by
  unfold allowedChar specAllowedChar isOpChar
  generalize c.isDigit = a
  generalize (decide (c = '.')) = b2
  generalize (decide (c = '+')) = b3
  generalize (decide (c = '-')) = b4
  generalize (decide (c = '*')) = b5
  generalize (decide (c = '/')) = b6
  generalize (decide (c = '(')) = b7
  generalize (decide (c = ')')) = b8
  revert a b2 b3 b4 b5 b6 b7 b8
  decide

theorem charsetOk_eq_spec (cs : List Char) : charsetOk cs = specCharsOnly cs := by
  unfold charsetOk specCharsOnly
  congr 1
  rw [Bool.eq_iff_iff, List.all_eq_true, List.all_eq_true]
  constructor
  · intro h c hm
    rw [← allowedChar_eq_spec c]
    exact h c hm
  · intro h c hm
    rw [allowedChar_eq_spec c]
    exact h c hm

theorem parenScan_cons (c : Char) (cs : List Char) (n : Int) :
    parenScan (c :: cs) n =
      (if (if c = '(' then n + 1 else if c = ')' then n - 1 else n) < 0 then false
       else parenScan cs (if c = '(' then n + 1 else if c = ')' then n - 1 else n)) := rfl

theorem parenScan_iff (cs : List Char) : ∀ (n : Int), 0 ≤ n →
    (parenScan cs n = true ↔
      ((∀ k, ((cs.take k).count ')' : Int) ≤ n + (cs.take k).count '(') ∧
       n + cs.count '(' = cs.count ')')) := by
  induction cs with
  | nil =>
    intro n hn
    simp only [parenScan, List.take_nil, List.count_nil, decide_eq_true_eq,
      Nat.cast_zero]
    constructor
    · intro h
      exact ⟨fun _ => by omega, by omega⟩
    · intro ⟨_, h⟩
      omega
  | cons c cs ih =>
    intro n hn
    by_cases hc : c = '('
    · subst hc
      have h1 : (if ('(' : Char) = '(' then n + 1 else if ('(' : Char) = ')' then n - 1 else n) = n + 1 := by
        simp
      rw [parenScan_cons, h1, if_neg (by omega : ¬ n + 1 < 0), ih (n + 1) (by omega)]
      have hco : ∀ t : List Char, (('(' : Char) :: t).count '(' = t.count '(' + 1 :=
        fun t => List.count_cons_self '(' t
      have hcc : ∀ t : List Char, (('(' : Char) :: t).count ')' = t.count ')' :=
        fun t => List.count_cons_of_ne (by decide) t
      constructor
      · rintro ⟨hpre, htot⟩
        refine ⟨fun k => ?_, ?_⟩
        · cases k with
          | zero => simp only [List.take_zero, List.count_nil, Nat.cast_zero]; omega
          | succ j =>
            have hj := hpre j
            simp only [List.take_succ_cons, hco, hcc]
            push_cast
            push_cast at hj
            omega
        · simp only [hco, hcc]
          push_cast
          omega
      · rintro ⟨hpre, htot⟩
        refine ⟨fun j => ?_, ?_⟩
        · have hj := hpre (j + 1)
          simp only [List.take_succ_cons, hco, hcc] at hj
          push_cast at hj
          omega
        · simp only [hco, hcc] at htot
          push_cast at htot
          omega
    · by_cases hc2 : c = ')'
      · subst hc2
        have h1 : (if (')' : Char) = '(' then n + 1 else if (')' : Char) = ')' then n - 1 else n) = n - 1 := by
          simp
        rw [parenScan_cons, h1]
        have hco : ∀ t : List Char, ((')' : Char) :: t).count '(' = t.count '(' :=
          fun t => List.count_cons_of_ne (by decide) t
        have hcc : ∀ t : List Char, ((')' : Char) :: t).count ')' = t.count ')' + 1 :=
          fun t => List.count_cons_self ')' t
        by_cases hz : n - 1 < 0
        · rw [if_pos hz]
          constructor
          · intro h
            exact absurd h (by simp)
          · rintro ⟨hpre, _⟩
            have h1' := hpre 1
            simp only [List.take_succ_cons, List.take_zero, hco, hcc,
              List.count_nil] at h1'
            push_cast at h1'
            omega
        · rw [if_neg hz, ih (n - 1) (by omega)]
          constructor
          · rintro ⟨hpre, htot⟩
            refine ⟨fun k => ?_, ?_⟩
            · cases k with
              | zero => simp only [List.take_zero, List.count_nil, Nat.cast_zero]; omega
              | succ j =>
                have hj := hpre j
                simp only [List.take_succ_cons, hco, hcc]
                push_cast
                push_cast at hj
                omega
            · simp only [hco, hcc]
              push_cast
              omega
          · rintro ⟨hpre, htot⟩
            refine ⟨fun j => ?_, ?_⟩
            · have hj := hpre (j + 1)
              simp only [List.take_succ_cons, hco, hcc] at hj
              push_cast at hj
              omega
            · simp only [hco, hcc] at htot
              push_cast at htot
              omega
      · have h1 : (if c = '(' then n + 1 else if c = ')' then n - 1 else n) = n := by
          rw [if_neg hc, if_neg hc2]
        rw [parenScan_cons, h1, if_neg (by omega : ¬ n < 0), ih n hn]
        have hco : ∀ t : List Char, (c :: t).count '(' = t.count '(' :=
          fun t => List.count_cons_of_ne (fun h => hc h.symm) t
        have hcc : ∀ t : List Char, (c :: t).count ')' = t.count ')' :=
          fun t => List.count_cons_of_ne (fun h => hc2 h.symm) t
        constructor
        · rintro ⟨hpre, htot⟩
          refine ⟨fun k => ?_, ?_⟩
          · cases k with
            | zero => simp only [List.take_zero, List.count_nil, Nat.cast_zero]; omega
            | succ j =>
              have hj := hpre j
              simp only [List.take_succ_cons, hco, hcc]
              exact hj
          · simp only [hco, hcc]
            exact htot
        · rintro ⟨hpre, htot⟩
          refine ⟨fun j => ?_, ?_⟩
          · have hj := hpre (j + 1)
            simp only [List.take_succ_cons, hco, hcc] at hj
            exact hj
          · simp only [hco, hcc] at htot
            exact htot

theorem parensBalanced_eq_spec (cs : List Char) :
    parensBalanced cs = specBalanced cs := by
  have h := parenScan_iff cs 0 le_rfl
  simp only [zero_add] at h
  unfold parensBalanced specBalanced
  by_cases hb : parenScan cs 0 = true
  · rw [hb]
    obtain ⟨hpre, htot⟩ := h.mp hb
    symm
    simp only [Bool.and_eq_true, List.all_eq_true, List.mem_range, decide_eq_true_eq]
    refine ⟨fun k _ => ?_, by exact_mod_cast htot⟩
    exact_mod_cast hpre k
  · rw [Bool.eq_false_iff.mpr hb]
    symm
    rw [Bool.eq_false_iff]
    intro hspec
    apply hb
    rw [h]
    simp only [Bool.and_eq_true, List.all_eq_true, List.mem_range, decide_eq_true_eq] at hspec
    obtain ⟨hpre, htot⟩ := hspec
    refine ⟨fun k => ?_, by exact_mod_cast htot⟩
    by_cases hk : k ≤ cs.length
    · exact_mod_cast hpre k (by omega)
    · have heq : cs.take k = cs := List.take_of_length_le (by omega)
      rw [heq]
      have := hpre cs.length (by omega)
      rw [List.take_length] at this
      exact_mod_cast this

theorem invalidOps_cons_cons (a b : Char) (rest : List Char) :
    invalidOps (a :: b :: rest) =
      ((isOpChar a && isOpChar b &&
        (match rest with
         | [] => true
         | c :: _ => !c.isDigit)) || invalidOps (b :: rest)) := rfl

theorem invalidOps_iff (cs : List Char) : invalidOps cs = true ↔ BadPair cs := by
  induction cs with
  | nil => simp [invalidOps, BadPair]
  | cons a cs ih =>
    cases cs with
    | nil => simp [invalidOps, BadPair]
    | cons b rest =>
      rw [invalidOps_cons_cons, Bool.or_eq_true]
      constructor
      · rintro (hhead | htail)
        · simp only [Bool.and_eq_true] at hhead
          obtain ⟨⟨ha, hb⟩, hrest⟩ := hhead
          refine ⟨0, by simp, by simpa using ha, by simpa using hb, ?_⟩
          cases rest with
          | nil => rfl
          | cons c rs =>
            simp only [List.getD_cons_succ, List.getD_cons_zero]
            simpa using hrest
        · obtain ⟨i, hlen, h1, h2, h3⟩ := ih.mp htail
          exact ⟨i + 1, by simpa using hlen, by simpa using h1, by simpa using h2,
            by simpa using h3⟩
      · rintro ⟨i, hlen, h1, h2, h3⟩
        cases i with
        | zero =>
          left
          simp only [List.getD_cons_zero, List.getD_cons_succ] at h1 h2 h3
          simp only [Bool.and_eq_true]
          refine ⟨⟨h1, h2⟩, ?_⟩
          cases rest with
          | nil => rfl
          | cons c rs =>
            simp only [List.getD_cons_zero] at h3
            simpa using h3
        | succ j =>
          right
          exact ih.mpr ⟨j, by simpa using hlen, by simpa using h1, by simpa using h2,
            by simpa using h3⟩

theorem specOpsOk_iff (cs : List Char) : specOpsOk cs = true ↔ ¬ BadPair cs := by
  unfold specOpsOk BadPair
  rw [List.all_eq_true]
  constructor
  · rintro h ⟨i, hlen, h1, h2, h3⟩
    have hm : i ∈ List.range cs.length := List.mem_range.mpr (by omega)
    have hx := h i hm
    rw [h1, h2, h3] at hx
    simp [hlen] at hx
  · intro h i _
    rw [Bool.not_eq_eq_eq_not, Bool.not_true]
    by_contra hcon
    apply h
    rw [Bool.not_eq_false] at hcon
    simp only [Bool.and_eq_true, decide_eq_true_eq, Bool.not_eq_true'] at hcon
    exact ⟨i, hcon.1.1.1, hcon.1.1.2, hcon.1.2, hcon.2⟩

/-! ### Claim C2 -/

/-- C2 counterexample: the claim states the evaluator accepts exactly the
expressions over the allowed charset with balanced parentheses and no
consecutive operators; but `"1+-2"` has the consecutive operators `+-`
(not a leading unary minus) and is nevertheless accepted, evaluating
to `-1`. -/
theorem calc_acceptance_counterexample :
    safeEvaluate "1+-2" = .ok ⟨-1, 1⟩ ∧ (Frac.mk (-1) 1).toRat = -1 ∧
      specAccepts "1+-2" = false ∧
      ¬ ((∃ q, safeEvaluate "1+-2" = .ok q) ↔ specAccepts "1+-2" = true) := by
  refine ⟨by rfl, by norm_num [Frac.toRat], by decide, ?_⟩
  intro h
  have hacc : specAccepts "1+-2" = true := h.mp ⟨⟨-1, 1⟩, by rfl⟩
  have hrej : specAccepts "1+-2" = false := by decide
  rw [hrej] at hacc
  exact absurd hacc (by decide)

/-- C2 (amended): the evaluator accepts an expression iff, after
whitespace removal, it passes the charset check, the balanced-parenthesis
check, and the operator-sequence check — which rejects an adjacent
operator pair only when it is not immediately followed by a digit — and
the cleaned text evaluates as a strict-mode JavaScript expression to a
finite number. -/
theorem calc_acceptance_characterization (s : String) :
    (∃ q, safeEvaluate s = .ok q) ↔
      (specCharsOnly (stripWs s.data) = true ∧ specBalanced (stripWs s.data) = true ∧
       specOpsOk (stripWs s.data) = true ∧
       ∃ q, jsEvaluate (stripWs s.data) = some (ExtQ.fin q)) := by
  have hops : specOpsOk (stripWs s.data) = true ↔ invalidOps (stripWs s.data) = false := by
    rw [specOpsOk_iff]
    rw [← invalidOps_iff]
    simp
  rw [← charsetOk_eq_spec, ← parensBalanced_eq_spec]
  unfold safeEvaluate
  cases hcs : charsetOk (stripWs s.data) with
  | false => simp [hcs]
  | true =>
    cases hpb : parensBalanced (stripWs s.data) with
    | false => simp [hcs, hpb]
    | true =>
      cases hio : invalidOps (stripWs s.data) with
      | true => simp [hcs, hpb, hio, hops]
      | false =>
        cases hj : jsEvaluate (stripWs s.data) with
        | none => simp [hcs, hpb, hio, hj, hops]
        | some v => cases v <;> simp [hcs, hpb, hio, hj, hops]

/-! ### Claim C7: the result formatter -/

theorem roundHalfUp_nonneg (x : ℚ) (h : 0 ≤ x) : 0 ≤ roundHalfUp x := by
  unfold roundHalfUp
  have : ((0 : ℤ) : ℚ) ≤ x + 1 / 2 := by push_cast; linarith
  exact Int.le_floor.mpr this

theorem abs_round4Away (v : ℚ) :
    |round4Away v| = (roundHalfUp (|v| * 10 ^ 4) : ℚ) / 10 ^ 4 := by
  unfold round4Away
  by_cases h : 0 ≤ v
  · rw [if_pos h, abs_of_nonneg h]
    have h0 : (0 : ℤ) ≤ roundHalfUp (v * 10 ^ 4) :=
      roundHalfUp_nonneg _ (by positivity)
    exact abs_of_nonneg (div_nonneg (by exact_mod_cast h0) (by norm_num))
  · have hv : v < 0 := lt_of_not_ge h
    rw [if_neg h, abs_of_neg hv, abs_neg]
    have h0 : (0 : ℤ) ≤ roundHalfUp (-v * 10 ^ 4) :=
      roundHalfUp_nonneg _ (by nlinarith)
    exact abs_of_nonneg (div_nonneg (by exact_mod_cast h0) (by norm_num))

theorem roundHalfUp_bounds (a : ℚ) (hlo : 1 / 100 ≤ a)
    (hhi : a < 1000000 - 1 / 20000) :
    (100 : ℤ) ≤ roundHalfUp (a * 10 ^ 4) ∧ roundHalfUp (a * 10 ^ 4) < 10 ^ 10 := by
  unfold roundHalfUp
  constructor
  · rw [Int.le_floor]
    push_cast
    nlinarith
  · rw [Int.floor_lt]
    push_cast
    nlinarith

/-- C7 (amended): the formatter uses exponential notation exactly for
magnitudes ≥ 1e6 or nonzero and < 0.01, fixed-point with at most 4 fraction
digits otherwise; and for every fixed-point-classified value whose
magnitude is below 1e6 − 1/20000, re-parsing the formatted string yields a
value that is again fixed-point-classified.  (Within 1/20000 of 1e6 the
4-digit rounding can carry the value up to 1e6 and flip the
classification: see the counterexample.) -/
theorem format_exponential_rule_and_roundtrip :
    (∀ v : ℚ, ((formatResult v).isExponential = true ↔
        (1000000 ≤ |v| ∨ (v ≠ 0 ∧ |v| < 1 / 100)))) ∧
    (∀ v : ℚ, (v = 0 ∨ (1 / 100 ≤ |v| ∧ |v| < 1000000 - 1 / 20000)) →
      (formatResult v).isExponential = false ∧
        (formatResult ((formatResult v).value)).isExponential = false) := by
  constructor
  · intro v
    unfold formatResult
    split_ifs with h
    · simp only [true_iff]
      tauto
    · simp only [Bool.false_eq_true, false_iff]
      tauto
  · intro v hv
    rcases hv with h0 | ⟨hlo, hhi⟩
    · subst h0
      have hcond : ¬ ((1000000 : ℚ) ≤ |(0 : ℚ)| ∨ (|(0 : ℚ)| < 1 / 100 ∧ (0 : ℚ) ≠ 0)) := by
        simp
      have hz : formatResult (0 : ℚ) = ⟨false, round4Away 0⟩ := by
        unfold formatResult
        rw [if_neg hcond]
      have hval : round4Away (0 : ℚ) = 0 := by
        unfold round4Away roundHalfUp
        rw [if_pos le_rfl]
        have : ((0 : ℚ) * 10 ^ 4 + 1 / 2) = 1 / 2 := by ring
        rw [this]
        have hfl : ⌊(1 / 2 : ℚ)⌋ = 0 := by
          rw [Int.floor_eq_iff]
          constructor <;> norm_num
        rw [hfl]
        norm_num
      refine ⟨by rw [hz], ?_⟩
      have hzv : (formatResult (0 : ℚ)).value = round4Away 0 := by rw [hz]
      rw [hzv, hval, hz]
    · have h1 : ¬ (1000000 : ℚ) ≤ |v| := by
        intro hc
        linarith
      have h2 : ¬ |v| < 1 / 100 := by
        intro hc
        linarith
      have hcond : ¬ ((1000000 : ℚ) ≤ |v| ∨ (|v| < 1 / 100 ∧ v ≠ 0)) := by
        tauto
      have hform : formatResult v = ⟨false, round4Away v⟩ := by
        unfold formatResult
        rw [if_neg hcond]
      refine ⟨by rw [hform], ?_⟩
      rw [hform]
      obtain ⟨hb1, hb2⟩ := roundHalfUp_bounds |v| hlo hhi
      have habs := abs_round4Away v
      have hq1 : (100 : ℚ) ≤ (roundHalfUp (|v| * 10 ^ 4) : ℚ) := by exact_mod_cast hb1
      have hq2 : (roundHalfUp (|v| * 10 ^ 4) : ℚ) < 10 ^ 10 := by exact_mod_cast hb2
      norm_num at hq1 hq2 habs
      have hw1 : ¬ (1000000 : ℚ) ≤ |round4Away v| := by
        rw [habs]
        intro hc
        rw [le_div_iff₀ (by norm_num : (0:ℚ) < 10000)] at hc
        norm_num at hc
        linarith
      have hw2 : ¬ |round4Away v| < 1 / 100 := by
        rw [habs]
        intro hc
        rw [div_lt_iff₀ (by norm_num : (0:ℚ) < 10000)] at hc
        norm_num at hc
        linarith
      have hwcond : ¬ ((1000000 : ℚ) ≤ |round4Away v| ∨
          (|round4Away v| < 1 / 100 ∧ round4Away v ≠ 0)) := by
        tauto
      unfold formatResult
      rw [if_neg hwcond]

/-- C7 witness: the amended theorem applied at the value 5, which is
fixed-point-classified and stays so after the round trip. -/
theorem format_rule_witness :
    (formatResult (5 : ℚ)).isExponential = false ∧
      (formatResult ((formatResult (5 : ℚ)).value)).isExponential = false :=
  format_exponential_rule_and_roundtrip.2 5
    (Or.inr ⟨by rw [abs_of_pos (by norm_num : (0:ℚ) < 5)]; norm_num,
      by rw [abs_of_pos (by norm_num : (0:ℚ) < 5)]; norm_num⟩)

/-- C7 counterexample: 999999.99999 is fixed-point-classified (< 1e6) but
its locale formatting rounds to 1,000,000, which re-parses as 1e6 and is
exponential-classified — formatting then re-parsing changes the
classification. -/
theorem format_roundtrip_counterexample :
    (formatResult ((99999999999 : ℚ) / 100000)).isExponential = false ∧
      (formatResult ((formatResult ((99999999999 : ℚ) / 100000)).value)).isExponential
        = true := by
  have hpos : (0 : ℚ) < (99999999999 : ℚ) / 100000 := by norm_num
  have habs : |(99999999999 : ℚ) / 100000| = (99999999999 : ℚ) / 100000 :=
    abs_of_pos hpos
  have hcond : ¬ ((1000000 : ℚ) ≤ |(99999999999 : ℚ) / 100000| ∨
      (|(99999999999 : ℚ) / 100000| < 1 / 100 ∧ (99999999999 : ℚ) / 100000 ≠ 0)) := by
    rw [habs]
    rintro (hc | ⟨hc, _⟩) <;> norm_num at hc
  have hround : roundHalfUp ((99999999999 : ℚ) / 100000 * 10 ^ 4) = 10 ^ 10 := by
    unfold roundHalfUp
    rw [Int.floor_eq_iff]
    constructor <;> norm_num
  have hform : formatResult ((99999999999 : ℚ) / 100000) =
      ⟨false, round4Away ((99999999999 : ℚ) / 100000)⟩ := by
    unfold formatResult
    rw [if_neg hcond]
  refine ⟨by rw [hform], ?_⟩
  rw [hform]
  have hval : round4Away ((99999999999 : ℚ) / 100000) = 1000000 := by
    unfold round4Away
    rw [if_pos (le_of_lt hpos), hround]
    norm_num
  show (formatResult (round4Away ((99999999999 : ℚ) / 100000))).isExponential = true
  rw [hval]
  have hc : (1000000 : ℚ) ≤ |(1000000 : ℚ)| ∨
      (|(1000000 : ℚ)| < 1 / 100 ∧ (1000000 : ℚ) ≠ 0) := by
    left
    rw [abs_of_pos (by norm_num : (0:ℚ) < 1000000)]
  unfold formatResult
  rw [if_pos hc]

/-! ## Spot-price tool (src lib/tools/spot-price/execute.ts)

The external effects are passed in: the `GOLDAPI_KEY` environment variable,
the outcome of the `fetch` call, and the current time string used as the
timestamp fallback.  The upstream JSON body is modelled by the fields the
code reads; an absent field is `none`. -/

/-- JavaScript `a || b` on possibly-absent numbers: `0` (and absence) is
falsy and falls through to the right operand. -/
def jsOrQ (a b : Option ℚ) : Option ℚ :=
  match a with
  | some x => if x = 0 then b else some x
  | none => b

/-- JavaScript `a || b` on possibly-absent strings: the empty string (and
absence) is falsy. -/
def jsOrStr (a : Option String) (b : String) : String :=
  match a with
  | some s => if s = "" then b else s
  | none => b

/-- Truthiness test of `process.env.GOLDAPI_KEY`: unset or empty is falsy. -/
def keyFalsy (key : Option String) : Bool :=
  match key with
  | none => true
  | some s => s = ""

/-- Fields of the goldapi.io JSON body that the code reads. -/
structure GoldJson where
  price : Option ℚ
  price_gram_24k : Option ℚ
  price_gram_22k : Option ℚ
  price_gram_21k : Option ℚ
  price_gram_20k : Option ℚ
  price_gram_18k : Option ℚ
  price_gram_16k : Option ℚ
  price_gram_14k : Option ℚ
  price_gram_10k : Option ℚ
  ask : Option ℚ
  unit : Option String
  timestamp : Option String
  ch : Option ℚ
  change : Option ℚ
  chp : Option ℚ
  change_percent : Option ℚ

/-- Outcome of `fetch` + `response.json()`. -/
inductive FetchOutcome where
  | netError (msg : String)
  | httpError (statusText : String)
  | ok (body : Except String GoldJson)

structure SpotData where
  metal : String
  price : Option ℚ
  currency : String
  unit : String
  timestamp : String
  change : Option ℚ
  changePercent : Option ℚ

structure SpotPriceResult where
  success : Bool
  data : Option SpotData
  error : Option String

/-- `executeSpotPriceTool`: every `throw` lands in the surrounding catch,
which returns a failure result with the thrown message. -/
def executeSpotPriceTool (key : Option String) (fetched : FetchOutcome)
    (nowIso : String) (metal currency : String) : SpotPriceResult :=
  if keyFalsy key then
    ⟨false, none, some "GOLDAPI_KEY environment variable is not set"⟩
  else
    match fetched with
    | .netError msg => ⟨false, none, some msg⟩
    | .httpError statusText =>
      ⟨false, none, some ("goldapi.io request failed: " ++ statusText)⟩
    | .ok (.error msg) => ⟨false, none, some msg⟩
    | .ok (.ok body) =>
      ⟨true,
        some
          { metal := metal
            price := jsOrQ (jsOrQ body.price body.price_gram_24k) body.ask
            currency := currency
            unit := jsOrStr body.unit "oz"
            timestamp := jsOrStr body.timestamp nowIso
            change := jsOrQ body.ch body.change
            changePercent := jsOrQ body.chp body.change_percent },
        none⟩

/-! ### Claim C10 -/

/-- C10: the spot-price tool fails exactly when the API key is falsy, the
request fails, the response is non-2xx, or the body is unparseable; every
parsed 2xx body yields success, with `data.price` absent when `price`,
`price_gram_24k` and `ask` are all absent; and a `price` equal to `0` is
skipped in favor of the remaining fallback chain because the code uses
JavaScript `||` on the raw values. -/
theorem spot_price_failure_characterization :
    (∀ key fetched nowIso metal currency,
      ((executeSpotPriceTool key fetched nowIso metal currency).success = false ↔
        (keyFalsy key = true ∨ (∃ m, fetched = .netError m) ∨
         (∃ st, fetched = .httpError st) ∨ (∃ m, fetched = .ok (.error m))))) ∧
    (∀ key body nowIso metal currency, keyFalsy key = false →
      (executeSpotPriceTool key (.ok (.ok body)) nowIso metal currency).success = true ∧
      (body.price = none → body.price_gram_24k = none → body.ask = none →
        ∃ d, (executeSpotPriceTool key (.ok (.ok body)) nowIso metal currency).data = some d ∧
          d.price = none)) ∧
    (∀ key body nowIso metal currency, keyFalsy key = false → body.price = some 0 →
      ∃ d, (executeSpotPriceTool key (.ok (.ok body)) nowIso metal currency).data = some d ∧
        d.price = jsOrQ body.price_gram_24k body.ask) := by
  refine ⟨?_, ?_, ?_⟩
  · intro key fetched nowIso metal currency
    unfold executeSpotPriceTool
    by_cases hk : keyFalsy key = true
    · simp [hk]
    · rw [if_neg hk]
      cases fetched with
      | netError m => simp [hk]
      | httpError st => simp [hk]
      | ok body =>
        cases body with
        | error m => simp [hk]
        | ok b => simp [hk]
  · intro key body nowIso metal currency hk
    unfold executeSpotPriceTool
    rw [if_neg (by simp [hk])]
    refine ⟨rfl, ?_⟩
    intro h1 h2 h3
    exact ⟨_, rfl, by simp [jsOrQ, h1, h2, h3]⟩
  · intro key body nowIso metal currency hk h0
    unfold executeSpotPriceTool
    rw [if_neg (by simp [hk])]
    exact ⟨_, rfl, by simp [jsOrQ, h0]⟩

/-- C10 witness: a concrete run with a parsed body whose `price` is `0`,
`price_gram_24k` absent and `ask` present: the tool succeeds and the
fallback chain lands on `ask`. -/
theorem spot_price_witness :
    keyFalsy (some "k") = false ∧
    (executeSpotPriceTool (some "k") (.ok (.ok
      { price := some 0, price_gram_24k := none, price_gram_22k := none,
        price_gram_21k := none, price_gram_20k := none, price_gram_18k := none,
        price_gram_16k := none, price_gram_14k := none, price_gram_10k := none,
        ask := some 42, unit := none, timestamp := none, ch := none,
        change := none, chp := none, change_percent := none }))
      "now" "XAU" "USD").success = true := by
  constructor
  · decide
  · exact (spot_price_failure_characterization.2.1 (some "k") _ "now" "XAU" "USD"
      (by decide)).1

/-! ## Rendering JavaScript numbers to strings

`executeWeightValueTool` builds the expression string
`weightInGrams + " * " + pricePerGram` by JavaScript template-literal
stringification of numbers.  We model number-to-string for the
nonnegative decimal range actually used (value zero, or between 1e-6 and
1e21 with denominator dividing 10^20), where JavaScript prints plain
decimal notation: integer part, and a fractional part without trailing
zeros. -/

def natToCharsAux : ℕ → ℕ → List Char → List Char
  | 0, _, acc => acc
  | fuel + 1, n, acc =>
    if n = 0 then acc
    else natToCharsAux fuel (n / 10) (Char.ofNat (48 + n % 10) :: acc)

/-- Base-10 digit characters of a natural number, most significant first
(the fuel `n` bounds the digit count). -/
def natToChars (n : ℕ) : List Char :=
  if n = 0 then ['0'] else natToCharsAux n n []

/-- Pad with leading `'0'` up to length `n`. -/
def padLeft (n : ℕ) (ds : List Char) : List Char :=
  List.replicate (n - ds.length) '0' ++ ds

/-- Remove trailing `'0'` characters. -/
def trimTrailingZeros (ds : List Char) : List Char :=
  (ds.reverse.dropWhile (fun c => c = '0')).reverse

/-- Decimal rendering of a nonnegative rational (exact when the
denominator divides 10^20). -/
def renderPos (q : ℚ) : List Char :=
  let ip := ⌊q⌋.toNat
  let F := ⌊(q - ⌊q⌋) * 10 ^ 20⌋.toNat
  natToChars ip ++
    (if F = 0 then [] else '.' :: trimTrailingZeros (padLeft 20 (natToChars F)))

def renderNum (q : ℚ) : String := ⟨renderPos q⟩

/-! ## Weight-value tool (src lib/tools/weight-value/execute.ts) -/

def validMetals : List String := ["XAU", "XAG", "XPT", "XPD"]

/-- `convertToGrams`: unit conversion with fixed constants
(1 troy ounce = 31.1035 g, 1 kg = 1000 g); unknown units throw. -/
def convertToGrams (weight : ℚ) (unit : String) : Except String ℚ :=
  let u := trimStr (toLowerStr unit)
  if u = "g" ∨ u = "grams" then .ok weight
  else if u = "oz" ∨ u = "ounces" ∨ u = "troy_ounces" then
    .ok (weight * (311035 / 10000 : ℚ))
  else if u = "kg" ∨ u = "kilograms" then .ok (weight * 1000)
  else .error ("Unsupported unit: " ++ unit ++ ". Use grams, ounces, or kg.")

/-- `KARAT_FIELD_MAP`: karat label to the spot-price field it selects. -/
def karatField (k : String) : Option (GoldJson → Option ℚ) :=
  if k = "24k" then some GoldJson.price_gram_24k
  else if k = "22k" then some GoldJson.price_gram_22k
  else if k = "21k" then some GoldJson.price_gram_21k
  else if k = "20k" then some GoldJson.price_gram_20k
  else if k = "18k" then some GoldJson.price_gram_18k
  else if k = "16k" then some GoldJson.price_gram_16k
  else if k = "14k" then some GoldJson.price_gram_14k
  else if k = "10k" then some GoldJson.price_gram_10k
  else none

structure WeightData where
  metal : String
  weight : ℚ
  unit : String
  karat : Option String
  pricePerUnit : ℚ
  totalValue : Frac
  formattedValue : Formatted
  currency : String
  spotPrice : Option ℚ
  calculationExpression : String

structure WeightValueResult where
  success : Bool
  data : Option WeightData
  error : Option String

/-- `executeWeightValueTool`: validation, direct Gold API query, karat
field selection, weight conversion, then the total value computed by
routing `weightInGrams * pricePerGram` through the calculation tool. -/
def executeWeightValueTool (key : Option String) (fetched : FetchOutcome)
    (metal : String) (weight : ℚ) (unit : String) (karat : Option String)
    (currency : String) : WeightValueResult :=
  if ¬ (metal ∈ validMetals) then
    ⟨false, none, some ("Invalid metal: " ++ metal ++ ". Must be XAU, XAG, XPT, or XPD.")⟩
  else if weight ≤ 0 then
    ⟨false, none, some "Weight must be a positive number."⟩
  else if keyFalsy key then
    ⟨false, none, some "GOLDAPI_KEY environment variable is not set"⟩
  else
    match fetched with
    | .netError msg => ⟨false, none, some msg⟩
    | .httpError st => ⟨false, none, some ("Gold API request failed: " ++ st)⟩
    | .ok (.error msg) => ⟨false, none, some msg⟩
    | .ok (.ok body) =>
      let karatToUse := karat.getD "24k"
      let priceSel : Except String (Option ℚ) :=
        if metal = "XAU" ∧ karat.isSome then
          match karatField karatToUse with
          | none =>
            .error ("Invalid karat: " ++ karatToUse ++
              ". Must be 24k, 22k, 21k, 20k, 18k, 16k, 14k, or 10k.")
          | some fld => .ok (fld body)
        else .ok body.price_gram_24k
      match priceSel with
      | .error e => ⟨false, none, some e⟩
      | .ok none =>
        ⟨false, none, some "Invalid price data received from API: undefined"⟩
      | .ok (some p) =>
        if p ≤ 0 then
          ⟨false, none, some ("Invalid price data received from API: " ++ renderNum p)⟩
        else
          match convertToGrams weight unit with
          | .error e => ⟨false, none, some e⟩
          | .ok grams =>
            if grams ≤ 0 then
              ⟨false, none, some ("Invalid weight conversion: " ++ renderNum grams)⟩
            else
              let expression := renderNum grams ++ " * " ++ renderNum p
              let description :=
                match karat with
                | some _ =>
                  "Calculate value of " ++ renderNum weight ++ unit ++ " of " ++
                    karatToUse ++ " " ++ metal ++ " at $" ++ renderNum p ++ "/gram"
                | none =>
                  "Calculate value of " ++ renderNum weight ++ unit ++ " of " ++
                    metal ++ " at $" ++ renderNum p ++ "/gram"
              let calcRes := executeCalculationTool expression description
              if calcRes.success then
                match calcRes.data with
                | some cd =>
                  ⟨true,
                    some
                      { metal := metal
                        weight := weight
                        unit := unit
                        karat := if metal = "XAU" then some karatToUse else none
                        pricePerUnit := p
                        totalValue := cd.result
                        formattedValue := cd.formattedResult
                        currency := currency
                        spotPrice := jsOrQ body.price body.price_gram_24k
                        calculationExpression := expression },
                    none⟩
                | none => ⟨false, none, some "Calculation failed: Unknown error"⟩
              else
                ⟨false, none,
                  some ("Calculation failed: " ++ calcRes.error.getD "Unknown error")⟩


/-! ## Decimal-string parsing correctness (for the weight-value claim)

The weight-value tool builds the expression `grams * price` by string
interpolation and routes it through the calculation tool; the lemmas
below show that rendering a nonnegative rational with at most 20 decimal
places and evaluating it back through `safeEvaluate` is the identity, so
the product is computed exactly. -/

theorem digitsToNat_foldl_shift (ys : List Char) : ∀ a : ℕ,
    ys.foldl (fun a c => 10 * a + (c.toNat - 48)) a =
      a * 10 ^ ys.length + ys.foldl (fun a c => 10 * a + (c.toNat - 48)) 0 := by
  induction ys with
  | nil => intro a; simp
  | cons c t ih =>
    intro a
    simp only [List.foldl_cons, List.length_cons]
    rw [ih (10 * a + (c.toNat - 48)), ih (10 * 0 + (c.toNat - 48))]
    ring

theorem digitsToNat_append (xs ys : List Char) :
    digitsToNat (xs ++ ys) = digitsToNat xs * 10 ^ ys.length + digitsToNat ys := by
  unfold digitsToNat
  rw [List.foldl_append, digitsToNat_foldl_shift]

theorem digitsToNat_replicate_zero (k : ℕ) :
    digitsToNat (List.replicate k '0') = 0 := by
  induction k with
  | zero => rfl
  | succ j ih =>
    unfold digitsToNat at ih ⊢
    rw [List.replicate_succ, List.foldl_cons]
    simpa using ih

theorem digit_char_spec (r : ℕ) (hr : r < 10) :
    (Char.ofNat (48 + r)).isDigit = true ∧ (Char.ofNat (48 + r)).toNat = 48 + r ∧
      (1 ≤ r → Char.ofNat (48 + r) ≠ '0') := by
  interval_cases r <;> refine ⟨by decide, by decide, by decide⟩

theorem natToCharsAux_spec : ∀ n fuel acc, n ≤ fuel →
    ∃ D, natToCharsAux fuel n acc = D ++ acc ∧
      (∀ c ∈ D, c.isDigit = true) ∧ digitsToNat D = n ∧
      (D = [] ↔ n = 0) ∧
      (∀ d t, D = d :: t → d ≠ '0') ∧
      (∀ k, n < 10 ^ k → D.length ≤ k ∨ n = 0) := by
  intro n
  induction n using Nat.strong_induction_on with
  | _ n ih =>
    intro fuel acc hle
    match n, hle with
    | 0, _ =>
      refine ⟨[], ?_, by simp, rfl, by simp, by simp, fun k _ => Or.inr rfl⟩
      cases fuel with
      | zero => rfl
      | succ f => simp [natToCharsAux]
    | m + 1, _ =>
      match fuel, hle with
      | f + 1, _ =>
        have hq : (m + 1) / 10 < m + 1 := Nat.div_lt_self (Nat.succ_pos m) (by omega)
        have hqf : (m + 1) / 10 ≤ f := by omega
        obtain ⟨D', hD', hdig', hval', hnil', hhead', hlen'⟩ :=
          ih ((m + 1) / 10) hq f (Char.ofNat (48 + (m + 1) % 10) :: acc) hqf
        have hr : (m + 1) % 10 < 10 := Nat.mod_lt _ (by omega)
        obtain ⟨hcd, hct, hcz⟩ := digit_char_spec ((m + 1) % 10) hr
        refine ⟨D' ++ [Char.ofNat (48 + (m + 1) % 10)], ?_, ?_, ?_, ?_, ?_, ?_⟩
        · show natToCharsAux (f + 1) (m + 1) acc = _
          rw [natToCharsAux]
          rw [if_neg (by omega)]
          rw [hD']
          simp
        · intro c hc
          rcases List.mem_append.mp hc with h | h
          · exact hdig' c h
          · simp at h; subst h; exact hcd
        · rw [digitsToNat_append, hval']
          have : digitsToNat [Char.ofNat (48 + (m + 1) % 10)] = (m + 1) % 10 := by
            unfold digitsToNat
            simp [hct]
          rw [this]
          simp only [List.length_singleton, pow_one]
          omega
        · constructor
          · intro h; exact absurd h (by simp)
          · intro h; exact absurd h (by omega)
        · intro d t hdt
          cases D' with
          | nil =>
            have hq0 : (m + 1) / 10 = 0 := hnil'.mp rfl
            have hr1 : 1 ≤ (m + 1) % 10 := by omega
            simp at hdt
            rw [← hdt.1]
            exact hcz hr1
          | cons d' t' =>
            have : d = d' := by simp at hdt; exact hdt.1.symm
            subst this
            exact hhead' d t' rfl
        · intro k hk
          left
          match k, hk with
          | 0, hk2 => exact absurd hk2 (by simp)
          | j + 1, hk2 =>
            have : (m + 1) / 10 < 10 ^ j := by
              have h10 : (0:ℕ) < 10 := by omega
              rw [Nat.div_lt_iff_lt_mul h10]
              calc m + 1 < 10 ^ (j + 1) := hk2
                _ = 10 ^ j * 10 := by ring
            rcases hlen' j this with h | h
            · simp only [List.length_append, List.length_singleton]
              omega
            · have : D' = [] := hnil'.mpr h
              subst this
              simp

theorem natToChars_spec (n : ℕ) :
    (∀ c ∈ natToChars n, c.isDigit = true) ∧ digitsToNat (natToChars n) = n ∧
      natToChars n ≠ [] ∧ leadingZeroBad (natToChars n) = false ∧
      (∀ k, 1 ≤ k → n < 10 ^ k → (natToChars n).length ≤ k) := by
  by_cases h0 : n = 0
  · subst h0
    refine ⟨by decide, by decide, by decide, by decide, ?_⟩
    intro k hk _
    simpa [natToChars] using hk
  · obtain ⟨D, hD, hdig, hval, hnil, hhead, hlen⟩ :=
      natToCharsAux_spec n n [] le_rfl
    have hD' : natToChars n = D := by
      unfold natToChars
      rw [if_neg h0, hD, List.append_nil]
    rw [hD']
    have hDnil : D ≠ [] := fun h => h0 (hnil.mp h)
    refine ⟨hdig, hval, hDnil, ?_, ?_⟩
    · rw [leadingZeroBad.eq_def]
      split
      · exact absurd rfl (hhead _ _ rfl)
      · rfl
    · intro k _ hk
      rcases hlen k hk with h | h
      · exact h
      · exact absurd h h0

theorem trimTrailingZeros_decomp (P : List Char) :
    ∃ j, P = trimTrailingZeros P ++ List.replicate j '0' ∧
      (trimTrailingZeros P).length + j = P.length := by
  unfold trimTrailingZeros
  have hsplit := List.takeWhile_append_dropWhile (p := fun c => c = '0') (l := P.reverse)
  have htw : ∀ c ∈ P.reverse.takeWhile (fun c => c = '0'), c = '0' := by
    intro c hc
    have := List.mem_takeWhile_imp hc
    simpa using this
  have hrep : P.reverse.takeWhile (fun c => c = '0') =
      List.replicate (P.reverse.takeWhile (fun c => c = '0')).length '0' :=
    List.eq_replicate_of_mem htw
  refine ⟨(P.reverse.takeWhile (fun c => c = '0')).length, ?_, ?_⟩
  · conv_lhs => rw [← P.reverse_reverse, ← hsplit]
    rw [List.reverse_append, hrep]
    simp [List.reverse_replicate]
  · have hlen2 : (P.reverse.takeWhile (fun c => c = '0')).length +
        (P.reverse.dropWhile (fun c => c = '0')).length = P.length := by
      rw [← List.length_append, hsplit, List.length_reverse]
    simp only [List.length_reverse]
    omega

theorem mem_trimTrailingZeros (P : List Char) (c : Char)
    (hc : c ∈ trimTrailingZeros P) : c ∈ P := by
  obtain ⟨j, hP, _⟩ := trimTrailingZeros_decomp P
  rw [hP]
  exact List.mem_append_left _ hc

theorem readDigits_of_all_digits : ∀ (D rest : List Char),
    (∀ c ∈ D, c.isDigit = true) →
    (∀ c t, rest = c :: t → c.isDigit = false) →
    readDigits (D ++ rest) = (D, rest) := by
  intro D
  induction D with
  | nil =>
    intro rest _ hrest
    cases rest with
    | nil => rfl
    | cons c t =>
      simp only [List.nil_append, readDigits]
      rw [if_neg (by rw [hrest c t rfl]; exact Bool.false_ne_true)]
  | cons d D' ih =>
    intro rest hD hrest
    simp only [List.cons_append, readDigits]
    rw [if_pos (hD d (by simp))]
    show (d :: (readDigits (D' ++ rest)).1, (readDigits (D' ++ rest)).2) = _
    rw [ih rest (fun c hc => hD c (by simp [hc])) hrest]

theorem renderPos_decomp (N : ℕ) :
    renderPos ((N : ℚ) / 10 ^ 20) =
      natToChars (N / 10 ^ 20) ++
        (if N % 10 ^ 20 = 0 then []
         else '.' :: trimTrailingZeros (padLeft 20 (natToChars (N % 10 ^ 20)))) := by
  obtain ⟨k, r, hN, hrlt, hkdef, hrdef⟩ :
      ∃ k r : ℕ, N = 10 ^ 20 * k + r ∧ r < 10 ^ 20 ∧ k = N / 10 ^ 20 ∧ r = N % 10 ^ 20 :=
    ⟨N / 10 ^ 20, N % 10 ^ 20, (Nat.div_add_mod N (10 ^ 20)).symm,
      Nat.mod_lt _ (by positivity), rfl, rfl⟩
  rw [← hkdef, ← hrdef]
  have hpow : (0:ℚ) < 10 ^ 20 := by positivity
  have hNq : (N : ℚ) = 10 ^ 20 * (k : ℚ) + (r : ℚ) := by exact_mod_cast hN
  have hrq : ((r : ℕ) : ℚ) < 10 ^ 20 := by exact_mod_cast hrlt
  have h0r : (0:ℚ) ≤ (r : ℚ) := Nat.cast_nonneg r
  have h1 : ⌊(N : ℚ) / 10 ^ 20⌋ = (k : ℤ) := by
    rw [Int.floor_eq_iff]
    constructor
    · rw [le_div_iff₀ hpow, hNq]
      push_cast
      linarith
    · rw [div_lt_iff₀ hpow, hNq]
      push_cast
      ring_nf
      ring_nf at hrq
      linarith
  have h2 : ⌊((N : ℚ) / 10 ^ 20 - ((k : ℤ) : ℚ)) * 10 ^ 20⌋ = ((r : ℕ) : ℤ) := by
    have hv : ((N : ℚ) / 10 ^ 20 - ((k : ℤ) : ℚ)) * 10 ^ 20 = (r : ℚ) := by
      push_cast
      rw [sub_mul, div_mul_cancel₀ _ (ne_of_gt hpow), hNq]
      ring
    rw [hv, Int.floor_natCast]
  show natToChars (⌊(N : ℚ) / 10 ^ 20⌋.toNat) ++
      (if ⌊((N : ℚ) / 10 ^ 20 - (⌊(N : ℚ) / 10 ^ 20⌋ : ℚ)) * 10 ^ 20⌋.toNat = 0 then []
       else '.' :: trimTrailingZeros (padLeft 20
         (natToChars (⌊((N : ℚ) / 10 ^ 20 - (⌊(N : ℚ) / 10 ^ 20⌋ : ℚ)) * 10 ^ 20⌋.toNat)))) = _
  rw [h1, h2, Int.toNat_natCast, Int.toNat_natCast]

theorem padLeft_spec (r : ℕ) (hr : r < 10 ^ 20) :
    (∀ c ∈ padLeft 20 (natToChars r), c.isDigit = true) ∧
      digitsToNat (padLeft 20 (natToChars r)) = r ∧
      (padLeft 20 (natToChars r)).length = 20 := by
  obtain ⟨hdig, hval, hnil, hlz, hlen⟩ := natToChars_spec r
  have hlen20 : (natToChars r).length ≤ 20 := hlen 20 (by omega) hr
  unfold padLeft
  refine ⟨?_, ?_, ?_⟩
  · intro c hc
    rcases List.mem_append.mp hc with h | h
    · rw [List.eq_of_mem_replicate h]; decide
    · exact hdig c h
  · rw [digitsToNat_append, digitsToNat_replicate_zero, hval]
    simp
  · simp only [List.length_append, List.length_replicate]
    omega

theorem fracPart_spec (r : ℕ) (hr : r < 10 ^ 20) :
    (∀ c ∈ trimTrailingZeros (padLeft 20 (natToChars r)), c.isDigit = true) ∧
      ∃ j, digitsToNat (trimTrailingZeros (padLeft 20 (natToChars r))) * 10 ^ j = r ∧
        (trimTrailingZeros (padLeft 20 (natToChars r))).length + j = 20 := by
  obtain ⟨hPdig, hPval, hPlen⟩ := padLeft_spec r hr
  obtain ⟨j, hdecomp, hjlen⟩ := trimTrailingZeros_decomp (padLeft 20 (natToChars r))
  refine ⟨fun c hc => hPdig c (mem_trimTrailingZeros _ c hc), j, ?_, by omega⟩
  have := hPval
  conv_lhs at this => rw [hdecomp]
  rw [digitsToNat_append, digitsToNat_replicate_zero, List.length_replicate] at this
  omega

theorem mem_renderPos (N : ℕ) (c : Char) (hc : c ∈ renderPos ((N : ℚ) / 10 ^ 20)) :
    c.isDigit = true ∨ c = '.' := by
  rw [renderPos_decomp] at hc
  rcases List.mem_append.mp hc with h | h
  · exact Or.inl ((natToChars_spec _).1 c h)
  · by_cases hz : N % 10 ^ 20 = 0
    · rw [if_pos hz] at h
      simp at h
    · rw [if_neg hz] at h
      rcases List.mem_cons.mp h with h | h
      · exact Or.inr h
      · exact Or.inl ((fracPart_spec (N % 10 ^ 20) (Nat.mod_lt _ (by positivity))).1 c h)

theorem renderPos_head (N : ℕ) :
    ∃ d t, renderPos ((N : ℚ) / 10 ^ 20) = d :: t ∧ d.isDigit = true := by
  rw [renderPos_decomp]
  obtain ⟨hdig, hval, hnil, hlz, hlen⟩ := natToChars_spec (N / 10 ^ 20)
  cases hD : natToChars (N / 10 ^ 20) with
  | nil => exact absurd hD hnil
  | cons d t =>
    refine ⟨d, t ++ (if N % 10 ^ 20 = 0 then []
      else '.' :: trimTrailingZeros (padLeft 20 (natToChars (N % 10 ^ 20)))), by simp, ?_⟩
    exact hdig d (by rw [hD]; simp)

theorem frac_value_eq (k r dT L j N : ℕ) (hmod : 10 ^ 20 * k + r = N)
    (hTval : dT * 10 ^ j = r) (hTlen : L + j = 20) :
    (((k : ℤ) * 10 ^ L + (dT : ℤ) : ℤ) : ℚ) / ((10 ^ L : ℕ) : ℚ) = (N : ℚ) / 10 ^ 20 := by
  have hpow : (0:ℚ) < 10 ^ 20 := by positivity
  rw [div_eq_div_iff (by positivity) (ne_of_gt hpow)]
  have h1020 : (10:ℚ) ^ (20:ℕ) = 10 ^ L * 10 ^ j := by
    rw [← pow_add]
    congr 1
    omega
  have hr : (dT:ℚ) * 10 ^ j = (r:ℚ) := by exact_mod_cast hTval
  have hN : (N:ℚ) = 10 ^ 20 * k + r := by exact_mod_cast hmod.symm
  push_cast
  rw [hN, ← hr, h1020]
  ring

theorem readNumber_render (N : ℕ) (rest : List Char)
    (hrest : ∀ c t, rest = c :: t → c.isDigit = false ∧ c ≠ '.') :
    ∃ fr : Frac, readNumber (renderPos ((N : ℚ) / 10 ^ 20) ++ rest) = some (fr, rest) ∧
      fr.toRat = (N : ℚ) / 10 ^ 20 := by
  have hpow : (0:ℚ) < 10 ^ 20 := by positivity
  have hmod : 10 ^ 20 * (N / 10 ^ 20) + N % 10 ^ 20 = N := Nat.div_add_mod N (10 ^ 20)
  obtain ⟨hdig, hval, hnil, hlz, hlen⟩ := natToChars_spec (N / 10 ^ 20)
  have hie : (natToChars (N / 10 ^ 20)).isEmpty = false := by
    cases h : natToChars (N / 10 ^ 20) with
    | nil => exact absurd h hnil
    | cons a b => rfl
  by_cases hz : N % 10 ^ 20 = 0
  · rw [renderPos_decomp, if_pos hz, List.append_nil]
    unfold readNumber
    rw [readDigits_of_all_digits _ rest hdig (fun c t h => (hrest c t h).1)]
    refine ⟨(⟨(N / 10 ^ 20 : ℕ), 1⟩ : Frac), ?_, ?_⟩
    · cases rest with
      | nil =>
        dsimp only
        rw [hie, hlz, hval]
        rfl
      | cons c t =>
        obtain ⟨hcd, hcdot⟩ := hrest c t rfl
        dsimp only
        split
        · rename_i r2 heq
          injection heq with h1 h2
          exact absurd h1 hcdot
        · rw [hie, hlz, hval]
          rfl
    · show ((N / 10 ^ 20 : ℕ) : ℚ) / ((1 : ℕ) : ℚ) = (N : ℚ) / 10 ^ 20
      rw [Nat.cast_one, div_one, eq_div_iff (ne_of_gt hpow)]
      exact_mod_cast (by omega : (N / 10 ^ 20) * 10 ^ 20 = N)
  · have hrlt : N % 10 ^ 20 < 10 ^ 20 := Nat.mod_lt _ (by positivity)
    obtain ⟨hTdig, j, hTval, hTlen⟩ := fracPart_spec (N % 10 ^ 20) hrlt
    rw [renderPos_decomp, if_neg hz]
    simp only [List.append_assoc, List.cons_append]
    unfold readNumber
    rw [readDigits_of_all_digits _ ('.' ::
        (trimTrailingZeros (padLeft 20 (natToChars (N % 10 ^ 20))) ++ rest)) hdig
      (fun c t h => by injection h with h1 _; rw [← h1]; decide)]
    refine ⟨(⟨(digitsToNat (natToChars (N / 10 ^ 20)) : ℤ) *
        10 ^ (trimTrailingZeros (padLeft 20 (natToChars (N % 10 ^ 20)))).length +
        (digitsToNat (trimTrailingZeros (padLeft 20 (natToChars (N % 10 ^ 20)))) : ℤ),
        10 ^ (trimTrailingZeros (padLeft 20 (natToChars (N % 10 ^ 20)))).length⟩ : Frac),
        ?_, ?_⟩
    · dsimp only
      split
      · rename_i r2 heq
        injection heq with h1 h2
        rw [← h2]
        rw [readDigits_of_all_digits _ rest hTdig (fun c t h => (hrest c t h).1)]
        dsimp only
        rw [hie, hlz]
        rfl
      · rename_i hno
        exact absurd rfl (hno (trimTrailingZeros (padLeft 20 (natToChars (N % 10 ^ 20))) ++ rest))
    · rw [hval]
      exact frac_value_eq (N / 10 ^ 20) (N % 10 ^ 20) _ _ j N hmod hTval hTlen

theorem tokenize_cons_digit (f : ℕ) (c : Char) (cs : List Char) (hd : c.isDigit = true) :
    tokenize (f + 1) (c :: cs) =
      (match readNumber (c :: cs) with
       | some (q, r) => (tokenize f r).map (Tok.num q :: ·)
       | none => none) := by
  rw [tokenize.eq_def]
  split
  · rename_i heq; exact absurd heq (by simp)
  · rename_i heq; exact absurd heq (by omega)
  all_goals try (rename_i heq₁ heq₂; injection heq₂ with h1 h2; subst h1; exact absurd hd (by decide))
  rename_i x1 x2 f2 c2 cs2 n1 n2 n3 n4 n5 n6 heq1 heq2
  injection heq2 with h1 h2
  subst h1; subst h2
  have hf : f = f2 := by omega
  subst hf
  rw [if_pos (by simp [hd])]

theorem tokenize_nil (f : ℕ) : tokenize f [] = some [] := by
  cases f <;> rfl

theorem tokenize_cons_star (f : ℕ) (c : Char) (cs : List Char) (hc : c.isDigit = true) :
    tokenize (f + 1) ('*' :: c :: cs) = (tokenize f (c :: cs)).map (Tok.star :: ·) := by
  rw [tokenize.eq_def]
  split
  · rename_i heq; exact absurd heq (by simp)
  · rename_i heq; exact absurd heq (by omega)
  all_goals try (rename_i heq₁ heq₂; injection heq₂ with h1 h2; exact absurd h1.symm (by decide))
  · rename_i f2 cs2 heq1 heq2
    injection heq2 with h1 h2
    subst h2
    have hf : f = f2 := by omega
    subst hf
    split
    · rename_i cs3 heq3
      injection heq3 with h3 h4
      rw [h3] at hc
      exact absurd hc (by decide)
    · rfl
  · rename_i x1 x2 f2 c2 cs2 n1 n2 n3 n4 n5 n6 heq1 heq2
    injection heq2 with h1 h2
    exact absurd h1.symm n3

theorem tokenize_render_mul (N1 N2 : ℕ) :
    ∃ f1 f2 : Frac,
      tokenize ((renderPos ((N1 : ℚ) / 10 ^ 20) ++ '*' :: renderPos ((N2 : ℚ) / 10 ^ 20)).length + 1)
          (renderPos ((N1 : ℚ) / 10 ^ 20) ++ '*' :: renderPos ((N2 : ℚ) / 10 ^ 20)) =
        some [Tok.num f1, Tok.star, Tok.num f2] ∧
      f1.toRat = (N1 : ℚ) / 10 ^ 20 ∧ f2.toRat = (N2 : ℚ) / 10 ^ 20 := by
  obtain ⟨d1, t1, hA, hd1⟩ := renderPos_head N1
  obtain ⟨d2, t2, hB, hd2⟩ := renderPos_head N2
  obtain ⟨fr1, hread1, hval1⟩ := readNumber_render N1 ('*' :: renderPos ((N2 : ℚ) / 10 ^ 20))
    (fun c t h => by
      injection h with h1 h2
      rw [← h1]
      exact ⟨by decide, by decide⟩)
  obtain ⟨fr2, hread2, hval2⟩ := readNumber_render N2 []
    (fun c t h => absurd h (by simp))
  rw [List.append_nil] at hread2
  refine ⟨fr1, fr2, ?_, hval1, hval2⟩
  have hL1 : renderPos ((N1 : ℚ) / 10 ^ 20) ++ '*' :: renderPos ((N2 : ℚ) / 10 ^ 20)
      = d1 :: (t1 ++ '*' :: renderPos ((N2 : ℚ) / 10 ^ 20)) := by
    rw [hA]
    rfl
  rw [hL1, tokenize_cons_digit _ d1 _ hd1, ← hL1, hread1]
  dsimp only
  have hlen : (renderPos ((N1 : ℚ) / 10 ^ 20) ++ '*' :: renderPos ((N2 : ℚ) / 10 ^ 20)).length
      = (t1.length + 1 + (renderPos ((N2 : ℚ) / 10 ^ 20)).length) + 1 := by
    rw [hA]
    simp only [List.length_append, List.length_cons]
    omega
  rw [hlen, hB, tokenize_cons_star _ d2 t2 hd2, ← hB]
  have hlen2 : t1.length + 1 + (renderPos ((N2 : ℚ) / 10 ^ 20)).length
      = (t1.length + 1 + t2.length) + 1 := by
    rw [hB]
    simp only [List.length_cons]
    omega
  rw [hlen2, hB, tokenize_cons_digit _ d2 t2 hd2, ← hB, hread2]
  dsimp only
  rw [tokenize_nil]
  rfl

theorem parseLevel_mul_toks (f1 f2 : Frac) :
    parseLevel 40 4 [Tok.num f1, Tok.star, Tok.num f2] =
      some (ExtQ.mul (ExtQ.fin f1) (ExtQ.fin f2), []) := rfl

theorem jsEvaluate_render_mul (N1 N2 : ℕ) :
    ∃ f1 f2 : Frac,
      jsEvaluate (renderPos ((N1 : ℚ) / 10 ^ 20) ++ '*' :: renderPos ((N2 : ℚ) / 10 ^ 20)) =
        some (ExtQ.fin (f1.mul f2)) ∧
      f1.toRat = (N1 : ℚ) / 10 ^ 20 ∧ f2.toRat = (N2 : ℚ) / 10 ^ 20 := by
  obtain ⟨f1, f2, htok, hv1, hv2⟩ := tokenize_render_mul N1 N2
  refine ⟨f1, f2, ?_, hv1, hv2⟩
  unfold jsEvaluate
  rw [htok]
  rfl

theorem isOpChar_of_digit (c : Char) (h : c.isDigit = true) : isOpChar c = false := by
  have h1 : ¬ c = '+' := fun he => by subst he; exact absurd h (by decide)
  have h2 : ¬ c = '-' := fun he => by subst he; exact absurd h (by decide)
  have h3 : ¬ c = '*' := fun he => by subst he; exact absurd h (by decide)
  have h4 : ¬ c = '/' := fun he => by subst he; exact absurd h (by decide)
  unfold isOpChar
  simp [h1, h2, h3, h4]

theorem isWhitespace_of_digit (c : Char) (h : c.isDigit = true) :
    c.isWhitespace = false := by
  have h1 : ¬ c = ' ' := fun he => by subst he; exact absurd h (by decide)
  have h2 : ¬ c = '\t' := fun he => by subst he; exact absurd h (by decide)
  have h3 : ¬ c = '\r' := fun he => by subst he; exact absurd h (by decide)
  have h4 : ¬ c = '\n' := fun he => by subst he; exact absurd h (by decide)
  unfold Char.isWhitespace
  simp [h1, h2, h3, h4]

theorem mem_renderPos_not_op (N : ℕ) (c : Char) (hc : c ∈ renderPos ((N : ℚ) / 10 ^ 20)) :
    isOpChar c = false := by
  rcases mem_renderPos N c hc with h | h
  · exact isOpChar_of_digit c h
  · rw [h]; decide

theorem mem_renderPos_not_ws (N : ℕ) (c : Char) (hc : c ∈ renderPos ((N : ℚ) / 10 ^ 20)) :
    c.isWhitespace = false := by
  rcases mem_renderPos N c hc with h | h
  · exact isWhitespace_of_digit c h
  · rw [h]; decide

theorem mem_renderPos_not_paren (N : ℕ) (c : Char) (hc : c ∈ renderPos ((N : ℚ) / 10 ^ 20)) :
    c ≠ '(' ∧ c ≠ ')' := by
  rcases mem_renderPos N c hc with h | h
  · constructor <;> rintro rfl <;> exact absurd h (by decide)
  · rw [h]; exact ⟨by decide, by decide⟩

theorem mem_renderPos_allowed (N : ℕ) (c : Char) (hc : c ∈ renderPos ((N : ℚ) / 10 ^ 20)) :
    allowedChar c = true := by
  rcases mem_renderPos N c hc with h | h
  · unfold allowedChar
    rw [h]
    rfl
  · rw [h]; decide

theorem parenScan_no_parens : ∀ cs : List Char,
    (∀ c ∈ cs, c ≠ '(' ∧ c ≠ ')') → parenScan cs 0 = true := by
  intro cs
  induction cs with
  | nil => intro _; rfl
  | cons c t ih =>
    intro h
    obtain ⟨h1, h2⟩ := h c (by simp)
    show parenScan (c :: t) 0 = true
    unfold parenScan
    rw [if_neg h1, if_neg h2]
    rw [if_neg (by omega : ¬ (0:ℤ) < 0)]
    exact ih (fun d hd => h d (by simp [hd]))

theorem invalidOps_no_ops : ∀ cs : List Char, (∀ c ∈ cs, isOpChar c = false) →
    invalidOps cs = false := by
  intro cs
  induction cs with
  | nil => intro _; rfl
  | cons a t ih =>
    intro h
    cases t with
    | nil => rfl
    | cons b r =>
      rw [invalidOps_cons_cons, h a (by simp)]
      simp only [Bool.false_and, Bool.false_or]
      exact ih (fun c hc => h c (by simp [hc]))

theorem invalidOps_append_single_op (m : Char) (B : List Char)
    (hB : ∀ c ∈ B, isOpChar c = false) (hBne : B ≠ []) :
    ∀ A : List Char, (∀ c ∈ A, isOpChar c = false) →
    invalidOps (A ++ m :: B) = false := by
  intro A
  induction A with
  | nil =>
    intro _
    cases B with
    | nil => exact absurd rfl hBne
    | cons b B' =>
      simp only [List.nil_append]
      rw [invalidOps_cons_cons, hB b (by simp)]
      simp only [Bool.and_false, Bool.false_and, Bool.false_or]
      exact invalidOps_no_ops _ hB
  | cons a A' ihA =>
    intro hA
    obtain ⟨x, xs, hx⟩ : ∃ x xs, A' ++ m :: B = x :: xs := by
      cases A' with
      | nil => exact ⟨m, B, rfl⟩
      | cons y ys => exact ⟨y, ys ++ m :: B, rfl⟩
    simp only [List.cons_append]
    rw [hx, invalidOps_cons_cons, hA a (by simp)]
    simp only [Bool.false_and, Bool.false_or]
    rw [← hx]
    exact ihA (fun c hc => hA c (by simp [hc]))

theorem charsetOk_render_mul (N1 N2 : ℕ) :
    charsetOk (renderPos ((N1 : ℚ) / 10 ^ 20) ++ '*' :: renderPos ((N2 : ℚ) / 10 ^ 20)) = true := by
  obtain ⟨d1, t1, hA, _⟩ := renderPos_head N1
  unfold charsetOk
  rw [Bool.and_eq_true]
  constructor
  · rw [hA]
    rfl
  · rw [List.all_eq_true]
    intro c hc
    rcases List.mem_append.mp hc with h | h
    · exact mem_renderPos_allowed N1 c h
    · rcases List.mem_cons.mp h with h | h
      · rw [h]; decide
      · exact mem_renderPos_allowed N2 c h

theorem parensBalanced_render_mul (N1 N2 : ℕ) :
    parensBalanced (renderPos ((N1 : ℚ) / 10 ^ 20) ++ '*' :: renderPos ((N2 : ℚ) / 10 ^ 20)) = true := by
  unfold parensBalanced
  apply parenScan_no_parens
  intro c hc
  rcases List.mem_append.mp hc with h | h
  · exact mem_renderPos_not_paren N1 c h
  · rcases List.mem_cons.mp h with h | h
    · rw [h]; exact ⟨by decide, by decide⟩
    · exact mem_renderPos_not_paren N2 c h

theorem invalidOps_render_mul (N1 N2 : ℕ) :
    invalidOps (renderPos ((N1 : ℚ) / 10 ^ 20) ++ '*' :: renderPos ((N2 : ℚ) / 10 ^ 20)) = false := by
  obtain ⟨d2, t2, hB, hd2⟩ := renderPos_head N2
  exact invalidOps_append_single_op '*' _ (fun c hc => mem_renderPos_not_op N2 c hc)
    (by rw [hB]; exact List.cons_ne_nil d2 t2) _
    (fun c hc => mem_renderPos_not_op N1 c hc)

theorem stripWs_render_mul (N1 N2 : ℕ) :
    stripWs (renderPos ((N1 : ℚ) / 10 ^ 20) ++ ' ' :: '*' :: ' ' :: renderPos ((N2 : ℚ) / 10 ^ 20))
      = renderPos ((N1 : ℚ) / 10 ^ 20) ++ '*' :: renderPos ((N2 : ℚ) / 10 ^ 20) := by
  unfold stripWs
  rw [List.filter_append]
  congr 1
  · rw [List.filter_eq_self]
    intro c hc
    rw [mem_renderPos_not_ws N1 c hc]
    rfl
  · rw [List.filter_cons_of_neg (by decide), List.filter_cons_of_pos (by decide),
      List.filter_cons_of_neg (by decide)]
    congr 1
    rw [List.filter_eq_self]
    intro c hc
    rw [mem_renderPos_not_ws N2 c hc]
    rfl

theorem safeEvaluate_render_mul (N1 N2 : ℕ) :
    ∃ f1 f2 : Frac,
      safeEvaluate (renderNum ((N1 : ℚ) / 10 ^ 20) ++ " * " ++ renderNum ((N2 : ℚ) / 10 ^ 20)) =
        .ok (f1.mul f2) ∧
      f1.toRat = (N1 : ℚ) / 10 ^ 20 ∧ f2.toRat = (N2 : ℚ) / 10 ^ 20 := by
  obtain ⟨f1, f2, hjs, hv1, hv2⟩ := jsEvaluate_render_mul N1 N2
  refine ⟨f1, f2, ?_, hv1, hv2⟩
  have hdata : (renderNum ((N1 : ℚ) / 10 ^ 20) ++ " * " ++ renderNum ((N2 : ℚ) / 10 ^ 20)).data
      = renderPos ((N1 : ℚ) / 10 ^ 20) ++ ' ' :: '*' :: ' ' :: renderPos ((N2 : ℚ) / 10 ^ 20) := by
    have h0 : (renderNum ((N1 : ℚ) / 10 ^ 20) ++ " * " ++ renderNum ((N2 : ℚ) / 10 ^ 20)).data
        = (renderPos ((N1 : ℚ) / 10 ^ 20) ++ [' ', '*', ' ']) ++ renderPos ((N2 : ℚ) / 10 ^ 20) := rfl
    rw [h0, List.append_assoc]
    rfl
  unfold safeEvaluate
  rw [hdata]
  dsimp only
  rw [stripWs_render_mul, charsetOk_render_mul, parensBalanced_render_mul,
    invalidOps_render_mul, hjs]
  rfl

theorem Frac_toRat_mul (a b : Frac) : (a.mul b).toRat = a.toRat * b.toRat := by
  unfold Frac.mul Frac.toRat
  push_cast
  rw [← div_mul_div_comm]

theorem mem_dropWhile_of_not (p : Char → Bool) : ∀ (l : List Char) (c : Char),
    c ∈ l → p c = false → c ∈ l.dropWhile p := by
  intro l
  induction l with
  | nil => intro c hc _; simp at hc
  | cons a t ih =>
    intro c hc hpc
    rw [List.dropWhile_cons]
    by_cases ha : p a = true
    · simp only [ha, if_true]
      rcases List.mem_cons.mp hc with h | h
      · rw [h] at hpc; rw [hpc] at ha; exact absurd ha (by simp)
      · exact ih c h hpc
    · simp only [Bool.not_eq_true] at ha
      simp only [ha]
      exact hc

theorem trimStr_ne_empty (s : String) (c : Char) (hc : c ∈ s.data)
    (hcws : c.isWhitespace = false) : ¬ (trimStr s).length = 0 := by
  intro h0
  have hdata : ((s.data.dropWhile Char.isWhitespace).reverse.dropWhile
      Char.isWhitespace).reverse = [] := List.length_eq_zero.mp h0
  have h1 : c ∈ s.data.dropWhile Char.isWhitespace :=
    mem_dropWhile_of_not _ s.data c hc hcws
  have h2 : c ∈ (s.data.dropWhile Char.isWhitespace).reverse :=
    List.mem_reverse.mpr h1
  have h3 : c ∈ (s.data.dropWhile Char.isWhitespace).reverse.dropWhile Char.isWhitespace :=
    mem_dropWhile_of_not _ _ c h2 hcws
  have h4 : c ∈ ((s.data.dropWhile Char.isWhitespace).reverse.dropWhile
      Char.isWhitespace).reverse := List.mem_reverse.mpr h3
  rw [hdata] at h4
  simp at h4

theorem renderPos_head_mem_expr (N1 N2 : ℕ) :
    ∃ c, c ∈ (renderNum ((N1 : ℚ) / 10 ^ 20) ++ " * " ++ renderNum ((N2 : ℚ) / 10 ^ 20)).data ∧
      c.isWhitespace = false := by
  obtain ⟨d1, t1, hA, hd1⟩ := renderPos_head N1
  refine ⟨d1, ?_, isWhitespace_of_digit d1 hd1⟩
  have h0 : (renderNum ((N1 : ℚ) / 10 ^ 20) ++ " * " ++ renderNum ((N2 : ℚ) / 10 ^ 20)).data
      = (renderPos ((N1 : ℚ) / 10 ^ 20) ++ [' ', '*', ' ']) ++ renderPos ((N2 : ℚ) / 10 ^ 20) := rfl
  rw [h0]
  apply List.mem_append_left
  apply List.mem_append_left
  rw [hA]
  simp

theorem executeCalculationTool_render_mul (N1 N2 : ℕ) (descr : String)
    (hdesc : ¬ (trimStr descr).length = 0) :
    ∃ f1 f2 : Frac,
      executeCalculationTool
          (renderNum ((N1 : ℚ) / 10 ^ 20) ++ " * " ++ renderNum ((N2 : ℚ) / 10 ^ 20)) descr =
        ⟨true, some ⟨trimStr (renderNum ((N1 : ℚ) / 10 ^ 20) ++ " * " ++
            renderNum ((N2 : ℚ) / 10 ^ 20)),
          f1.mul f2, trimStr descr, formatResult (f1.mul f2).toRat⟩, none⟩ ∧
      (f1.mul f2).toRat = (N1 : ℚ) / 10 ^ 20 * ((N2 : ℚ) / 10 ^ 20) := by
  obtain ⟨f1, f2, hse, hv1, hv2⟩ := safeEvaluate_render_mul N1 N2
  have hexpr : ¬ (trimStr (renderNum ((N1 : ℚ) / 10 ^ 20) ++ " * " ++
      renderNum ((N2 : ℚ) / 10 ^ 20))).length = 0 := by
    obtain ⟨c, hc, hcws⟩ := renderPos_head_mem_expr N1 N2
    exact trimStr_ne_empty _ c hc hcws
  refine ⟨f1, f2, ?_, by rw [Frac_toRat_mul, hv1, hv2]⟩
  unfold executeCalculationTool
  rw [if_neg hexpr, if_neg hdesc, hse]

theorem convertToGrams_pos (w g : ℚ) (u : String) (hw : 0 < w)
    (h : convertToGrams w u = .ok g) : 0 < g := by
  unfold convertToGrams at h
  dsimp only at h
  split at h
  · injection h with h1; rw [← h1]; exact hw
  · split at h
    · injection h with h1; rw [← h1]; positivity
    · split at h
      · injection h with h1; rw [← h1]; positivity
      · simp at h

def selectedKaratPrice (metal : String) (karat : Option String) (body : GoldJson) :
    Option ℚ :=
  if metal = "XAU" ∧ karat.isSome then
    (karatField (karat.getD "24k")).bind (fun fld => fld body)
  else body.price_gram_24k

/-- C3: for every valid metal symbol, positive weight, recognized unit and
(for gold) valid karat, given an API response carrying a positive per-gram
price for the selected karat field, the weight-value tool succeeds and its
`totalValue` equals the weight converted to grams (1 troy ounce =
31.1035 g, 1 kg = 1000 g) times the per-gram price — exactly, in this
rational model, for inputs with at most 20 decimal places — and the
product is the result of routing `grams * price` through the shared
arithmetic evaluator (`calculationExpression` is exactly that string and
`totalValue` is the calculation tool's result for it). -/
theorem weight_value_correct
    (key : Option String) (body : GoldJson) (metal : String) (weight : ℚ)
    (unit : String) (karat : Option String) (currency : String)
    (grams p : ℚ) (Ng Np : ℕ)
    (hmetal : metal ∈ validMetals)
    (hw : 0 < weight)
    (hkey : keyFalsy key = false)
    (hconv : convertToGrams weight unit = .ok grams)
    (hsel : selectedKaratPrice metal karat body = some p)
    (hp : 0 < p)
    (hNg : grams = (Ng : ℚ) / 10 ^ 20)
    (hNp : p = (Np : ℚ) / 10 ^ 20) :
    (executeWeightValueTool key (.ok (.ok body)) metal weight unit karat currency).success
        = true ∧
    ∃ d, (executeWeightValueTool key (.ok (.ok body)) metal weight unit karat
        currency).data = some d ∧
      d.totalValue.toRat = grams * p ∧
      d.calculationExpression = renderNum grams ++ " * " ++ renderNum p := by
  have hg : 0 < grams := convertToGrams_pos weight grams unit hw hconv
  subst hNg
  subst hNp
  have hkeyne : ¬ keyFalsy key = true := by rw [hkey]; exact Bool.false_ne_true
  by_cases hx : metal = "XAU" ∧ karat.isSome
  · obtain ⟨hxm, hxk⟩ := hx
    obtain ⟨k0, hk0⟩ : ∃ k0, karat = some k0 := Option.isSome_iff_exists.mp hxk
    subst hk0
    unfold selectedKaratPrice at hsel
    rw [if_pos ⟨hxm, rfl⟩] at hsel
    cases hkf : karatField ((some k0).getD "24k") with
    | none => rw [hkf] at hsel; simp at hsel
    | some fld =>
      rw [hkf] at hsel
      simp only [Option.some_bind] at hsel
      have hdesc : ¬ (trimStr ("Calculate value of " ++
          renderNum weight ++ unit ++ " of " ++ ((some k0).getD "24k") ++ " " ++ metal ++
          " at $" ++ renderNum ((Np : ℚ) / 10 ^ 20) ++ "/gram")).length = 0 := by
        apply trimStr_ne_empty _ 'C' _ (by decide)
        exact List.mem_cons_self 'C' _
      obtain ⟨f1, f2, hcalc, hval⟩ := executeCalculationTool_render_mul Ng Np _ hdesc
      have heq : executeWeightValueTool key (.ok (.ok body)) metal weight unit
          (some k0) currency =
          ⟨true, some ⟨metal, weight, unit,
            (if metal = "XAU" then some ((some k0).getD "24k") else none),
            (Np : ℚ) / 10 ^ 20, f1.mul f2,
            formatResult (f1.mul f2).toRat, currency,
            jsOrQ body.price body.price_gram_24k,
            renderNum ((Ng : ℚ) / 10 ^ 20) ++ " * " ++ renderNum ((Np : ℚ) / 10 ^ 20)⟩,
            none⟩ := by
        unfold executeWeightValueTool
        rw [if_neg (not_not_intro hmetal), if_neg (not_le.mpr hw), if_neg hkeyne]
        dsimp only
        rw [if_pos ⟨hxm, rfl⟩, hkf]
        simp only [hsel]
        rw [if_neg (not_le.mpr hp)]
        simp only [hconv]
        rw [if_neg (not_le.mpr hg)]
        simp only [hcalc]
        rw [if_pos trivial]
      rw [heq]
      exact ⟨rfl, _, rfl, by rw [hval], rfl⟩
  · have hsel2 : body.price_gram_24k = some ((Np : ℚ) / 10 ^ 20) := by
      unfold selectedKaratPrice at hsel
      rw [if_neg hx] at hsel
      exact hsel
    cases karat with
    | none =>
      have hdesc : ¬ (trimStr ("Calculate value of " ++
          renderNum weight ++ unit ++ " of " ++ metal ++
          " at $" ++ renderNum ((Np : ℚ) / 10 ^ 20) ++ "/gram")).length = 0 := by
        apply trimStr_ne_empty _ 'C' _ (by decide)
        exact List.mem_cons_self 'C' _
      obtain ⟨f1, f2, hcalc, hval⟩ := executeCalculationTool_render_mul Ng Np _ hdesc
      have heq : executeWeightValueTool key (.ok (.ok body)) metal weight unit
          none currency =
          ⟨true, some ⟨metal, weight, unit,
            (if metal = "XAU" then some ((none : Option String).getD "24k") else none),
            (Np : ℚ) / 10 ^ 20, f1.mul f2,
            formatResult (f1.mul f2).toRat, currency,
            jsOrQ body.price body.price_gram_24k,
            renderNum ((Ng : ℚ) / 10 ^ 20) ++ " * " ++ renderNum ((Np : ℚ) / 10 ^ 20)⟩,
            none⟩ := by
        unfold executeWeightValueTool
        rw [if_neg (not_not_intro hmetal), if_neg (not_le.mpr hw), if_neg hkeyne]
        dsimp only
        rw [if_neg hx]
        simp only [hsel2]
        rw [if_neg (not_le.mpr hp)]
        simp only [hconv]
        rw [if_neg (not_le.mpr hg)]
        simp only [hcalc]
        rw [if_pos trivial]
      rw [heq]
      exact ⟨rfl, _, rfl, by rw [hval], rfl⟩
    | some k0 =>
      have hdesc : ¬ (trimStr ("Calculate value of " ++
          renderNum weight ++ unit ++ " of " ++ ((some k0).getD "24k") ++ " " ++ metal ++
          " at $" ++ renderNum ((Np : ℚ) / 10 ^ 20) ++ "/gram")).length = 0 := by
        apply trimStr_ne_empty _ 'C' _ (by decide)
        exact List.mem_cons_self 'C' _
      obtain ⟨f1, f2, hcalc, hval⟩ := executeCalculationTool_render_mul Ng Np _ hdesc
      have heq : executeWeightValueTool key (.ok (.ok body)) metal weight unit
          (some k0) currency =
          ⟨true, some ⟨metal, weight, unit,
            (if metal = "XAU" then some ((some k0).getD "24k") else none),
            (Np : ℚ) / 10 ^ 20, f1.mul f2,
            formatResult (f1.mul f2).toRat, currency,
            jsOrQ body.price body.price_gram_24k,
            renderNum ((Ng : ℚ) / 10 ^ 20) ++ " * " ++ renderNum ((Np : ℚ) / 10 ^ 20)⟩,
            none⟩ := by
        unfold executeWeightValueTool
        rw [if_neg (not_not_intro hmetal), if_neg (not_le.mpr hw), if_neg hkeyne]
        dsimp only
        rw [if_neg hx]
        simp only [hsel2]
        rw [if_neg (not_le.mpr hp)]
        simp only [hconv]
        rw [if_neg (not_le.mpr hg)]
        simp only [hcalc]
        rw [if_pos trivial]
      rw [heq]
      exact ⟨rfl, _, rfl, by rw [hval], rfl⟩

def goldBody18k : GoldJson :=
  { price := none, price_gram_24k := none, price_gram_22k := none, price_gram_21k := none,
    price_gram_20k := none, price_gram_18k := some (395 / 4), price_gram_16k := none,
    price_gram_14k := none, price_gram_10k := none, ask := none, unit := none,
    timestamp := none, ch := none, change := none, chp := none, change_percent := none }

/-- C3 witness: 15 g of 18k gold at 98.75 USD/gram values at exactly
1481.25 (= 15 x 98.75). -/
theorem weight_value_witness :
    (0 : ℚ) < 15 ∧ convertToGrams 15 "g" = .ok 15 ∧
    (executeWeightValueTool (some "k") (.ok (.ok goldBody18k)) "XAU" 15 "g"
        (some "18k") "USD").success = true ∧
    ∃ d, (executeWeightValueTool (some "k") (.ok (.ok goldBody18k)) "XAU" 15 "g"
        (some "18k") "USD").data = some d ∧
      d.totalValue.toRat = 15 * (395 / 4) := by
  refine ⟨by norm_num, rfl, ?_⟩
  obtain ⟨hs, d, hd, hv, he⟩ := weight_value_correct (some "k") goldBody18k "XAU" 15 "g"
    (some "18k") "USD" 15 (395 / 4) 1500000000000000000000 9875000000000000000000
    (by simp [validMetals]) (by norm_num) (by decide) rfl rfl (by norm_num)
    (by norm_num) (by norm_num)
  exact ⟨hs, d, hd, hv⟩

/-! ## Historical-data utilities (src lib/tools/historical-data/utils.ts)

Date strings have the internal form `YYYYMm` (no zero padding of the
month).  The code compares them with JavaScript string `<=`/`>=` and
`localeCompare`, both of which coincide with code-unit lexicographic
order on these digit/`M` strings; we model both by `lexLt`/`lexLe`. -/

def lexLt : List Char → List Char → Bool
  | [], [] => false
  | [], _ :: _ => true
  | _ :: _, [] => false
  | a :: as, b :: bs => if a < b then true else if b < a then false else lexLt as bs

def lexLe (x y : List Char) : Bool := !lexLt y x

def strLe (a b : String) : Bool := lexLe a.data b.data

def strLt (a b : String) : Bool := lexLt a.data b.data

/-- Insertion into a sorted list (used to model `Array.prototype.sort`,
whose result on distinct keys is the unique sorted permutation). -/
def insertBy {α : Type} (le : α → α → Bool) (x : α) : List α → List α
  | [] => [x]
  | y :: ys => if le x y then x :: y :: ys else y :: insertBy le x ys

def sortBy {α : Type} (le : α → α → Bool) : List α → List α
  | [] => []
  | x :: xs => insertBy le x (sortBy le xs)

/-- Match of `/^(\d{4})M(\d{1,2})$/`: the 4-digit year (kept as written)
and the numeric month. -/
def parseExcelDate (s : String) : Option (String × ℕ) :=
  match s.data with
  | [a, b, c, d, 'M', e] =>
    if a.isDigit && b.isDigit && c.isDigit && d.isDigit && e.isDigit then
      some (⟨[a, b, c, d]⟩, digitsToNat [e])
    else none
  | [a, b, c, d, 'M', e, f] =>
    if a.isDigit && b.isDigit && c.isDigit && d.isDigit && e.isDigit && f.isDigit then
      some (⟨[a, b, c, d]⟩, digitsToNat [e, f])
    else none
  | _ => none

/-- Match of `/^(\d{4})-(\d{1,2})$/`. -/
def parseDashDate (s : String) : Option (String × ℕ) :=
  match s.data with
  | [a, b, c, d, '-', e] =>
    if a.isDigit && b.isDigit && c.isDigit && d.isDigit && e.isDigit then
      some (⟨[a, b, c, d]⟩, digitsToNat [e])
    else none
  | [a, b, c, d, '-', e, f] =>
    if a.isDigit && b.isDigit && c.isDigit && d.isDigit && e.isDigit && f.isDigit then
      some (⟨[a, b, c, d]⟩, digitsToNat [e, f])
    else none
  | _ => none

def monthNames : List String :=
  ["January", "February", "March", "April", "May", "June",
   "July", "August", "September", "October", "November", "December"]

/-- `formatDateForDisplay`: `1990M1` becomes `January 1990`; anything not
matching the pattern is returned unchanged (a month outside 1..12 indexes
past the month-name array and prints `undefined`). -/
def formatDateForDisplay (s : String) : String :=
  match parseExcelDate s with
  | none => s
  | some (year, month) =>
    (if 1 ≤ month ∧ month ≤ 12 then monthNames.getD (month - 1) "undefined"
     else "undefined") ++ " " ++ year

/-- `convertToExcelDate`: `YYYY-M[M]` to `YYYYMm` (month re-rendered
without leading zero); already-Excel-format strings pass through;
anything else throws. -/
def convertToExcelDate (s : String) : Except String String :=
  match parseDashDate s with
  | some (year, month) => .ok (year ++ "M" ++ toString month)
  | none =>
    if (parseExcelDate s).isSome then .ok s
    else .error ("Invalid date format: " ++ s ++ ". Expected YYYY-MM format.")

/-! ### Relative-period parsing (parseRelativePeriod)

The three case-insensitive regex searches `(?:last|past|)\s*(\d+)\s*weeks?`,
`...months?`, `...years?` (the number optional for years) are modelled by a
leftmost search for a digit run followed by optional whitespace and the
unit word; the optional `last|past` prefix never changes whether a match
exists nor the captured digits, since the capture is always the maximal
digit run immediately (modulo whitespace) preceding the unit word. -/

/-- Case-insensitive prefix test (pattern given in lowercase). -/
def isPrefixCI : List Char → List Char → Bool
  | [], _ => true
  | _ :: _, [] => false
  | p :: ps, c :: cs => if c.toLower = p then isPrefixCI ps cs else false

/-- Try to match `digits \s* unit` at this position. -/
def matchNumUnitAt (unit : List Char) (allowEmptyNum : Bool) (cs : List Char) :
    Option (Option ℕ) :=
  let d := readDigits cs
  if d.1.isEmpty && !allowEmptyNum then none
  else
    let rest := d.2.dropWhile (fun c => c.isWhitespace)
    if isPrefixCI unit rest then
      some (if d.1.isEmpty then none else some (digitsToNat d.1))
    else none

/-- Leftmost search for `digits \s* unit`. -/
def searchNumUnit (unit : List Char) (allowEmptyNum : Bool) : List Char → Option (Option ℕ)
  | [] => none
  | c :: cs =>
    match matchNumUnitAt unit allowEmptyNum (c :: cs) with
    | some r => some r
    | none => searchNumUnit unit allowEmptyNum cs

/-- `Math.round(weeksBack / 4.33)` in exact integer arithmetic:
`round(n/4.33) = ⌊100n/433 + 1/2⌋ = ⌊(200n + 433)/866⌋`. -/
def monthsBackOfWeeks (n : ℕ) : ℕ := (200 * n + 433) / 866

/-- The `while (startMonth <= 0) { startMonth += 12; startYear -= 1 }`
loop, with enough fuel for every reachable input. -/
def adjustMonthFuel : ℕ → ℤ → ℤ → ℤ × ℤ
  | 0, y, m => (y, m)
  | k + 1, y, m => if m ≤ 0 then adjustMonthFuel k (y - 1) (m + 12) else (y, m)

def adjustMonth (y m : ℤ) : ℤ × ℤ := adjustMonthFuel (1 - m).toNat y m

/-- The dataset's hardcoded latest period, 2025M9. -/
def latestPeriod : ℤ × ℤ := (2025, 9)

/-- `parseRelativePeriod`, returning the (year, month) pairs of the start
and end periods. -/
def parseRelativePeriodParts (s : String) : Except String ((ℤ × ℤ) × (ℤ × ℤ)) :=
  match searchNumUnit "week".data false s.data with
  | some (some n) =>
    .ok (adjustMonth 2025 (9 - (monthsBackOfWeeks n : ℤ)), latestPeriod)
  | _ =>
    match searchNumUnit "month".data false s.data with
    | some (some n) => .ok (adjustMonth 2025 (9 - (n : ℤ)), latestPeriod)
    | _ =>
      match searchNumUnit "year".data true s.data with
      | some cap =>
        .ok ((2025 - ((cap.getD 1 : ℕ) : ℤ), 9), latestPeriod)
      | none => .error ("Unable to parse relative period: " ++ s)

def renderPeriod (p : ℤ × ℤ) : String := toString p.1 ++ "M" ++ toString p.2

def parseRelativePeriod (s : String) : Except String (String × String) :=
  (parseRelativePeriodParts s).map fun pr => (renderPeriod pr.1, renderPeriod pr.2)

/-! ## Historical-data tool (src lib/tools/historical-data/execute.ts)

The dataset argument stands for the value of `getMetalHistoricalData`
(an exception while loading appears as `.error`); the file
`data/precious_metals.json` is not part of the sources, so concrete
datasets below are modelled from the spec: monthly points, internal dates
`YYYYMm` sorted by `localeCompare`, ending at the latest period 2025M9. -/

structure HPoint where
  date : String
  displayDate : String
  price : ℚ

structure GrowthInfo where
  absoluteChange : ℚ
  percentageChange : ℚ
  direction : String

/-- `calculateGrowth`: absolute change, percentage change, direction. -/
def calculateGrowth (startPrice endPrice : ℚ) : GrowthInfo :=
  let ab := endPrice - startPrice
  { absoluteChange := ab
    percentageChange := ab / startPrice * 100
    direction :=
      if 0 < ab then "increase" else if ab < 0 then "decrease" else "no change" }

/-- Exact-date lookup `historicalData.find(p => p.date === d)`. -/
def findExact (data : List HPoint) (d : String) : Option HPoint :=
  data.find? (fun p => p.date = d)

/-- Start resolution: exact match, else
`filter(p.date >= d).sort(ascending)[0]`. -/
def resolveStart (data : List HPoint) (d : String) : Option HPoint :=
  match findExact data d with
  | some p => some p
  | none =>
    (sortBy (fun a b => strLe a.date b.date)
      (data.filter (fun p => strLe d p.date))).head?

/-- End resolution: exact match, else
`filter(p.date <= d).sort(descending)[0]`. -/
def resolveEnd (data : List HPoint) (d : String) : Option HPoint :=
  match findExact data d with
  | some p => some p
  | none =>
    (sortBy (fun a b => strLe b.date a.date)
      (data.filter (fun p => strLe p.date d))).head?

/-- JavaScript truthiness of an optional string parameter. -/
def optTruthy (o : Option String) : Bool :=
  match o with
  | some s => !(s = "")
  | none => false

/-- The date-range determination step of `executeHistoricalDataTool`. -/
def determineDates (data : List HPoint)
    (startDate endDate relativePeriod : Option String) :
    Except String (String × String) :=
  if optTruthy relativePeriod then parseRelativePeriod (relativePeriod.getD "")
  else if optTruthy startDate ∧ optTruthy endDate then
    match convertToExcelDate (startDate.getD "") with
    | .error e => .error e
    | .ok s =>
      if toLowerStr (endDate.getD "") = "now" then
        .ok (s, ((data.getLast?.map HPoint.date).getD ""))
      else
        match convertToExcelDate (endDate.getD "") with
        | .error e => .error e
        | .ok e2 => .ok (s, e2)
  else
    .error "Either provide specific start/end dates or a relative period like \"last 5 months\""

structure HistData where
  metal : String
  startDate : String
  endDate : String
  startDateDisplay : String
  endDateDisplay : String
  startPrice : ℚ
  endPrice : ℚ
  absoluteChange : ℚ
  percentageChange : ℚ
  direction : String
  period : String
  dataPoints : ℕ

structure HistoricalDataResult where
  success : Bool
  data : Option HistData
  error : Option String

/-- `executeHistoricalDataTool`. -/
def executeHistoricalDataTool (dataOrErr : Except String (List HPoint))
    (metal : String) (startDate endDate relativePeriod : Option String) :
    HistoricalDataResult :=
  if ¬ (metal ∈ validMetals) then
    ⟨false, none, some ("Invalid metal: " ++ metal ++ ". Must be XAU, XAG, XPT, or XPD.")⟩
  else
    match dataOrErr with
    | .error e => ⟨false, none, some e⟩
    | .ok data =>
      if data.isEmpty then
        ⟨false, none, some ("No historical data available for " ++ metal)⟩
      else
        match determineDates data startDate endDate relativePeriod with
        | .error e => ⟨false, none, some e⟩
        | .ok (as, ae) =>
          match resolveStart data as, resolveEnd data ae with
          | some cs, some ce =>
            if cs.date = ce.date then
              ⟨false, none,
                some ("Start and end dates are the same (" ++ cs.displayDate ++
                  "). Please provide a different date range.")⟩
            else
              let growth := calculateGrowth cs.price ce.price
              let period := jsOrStr relativePeriod
                ("from " ++ cs.displayDate ++ " to " ++ ce.displayDate)
              let dp := (data.filter
                (fun p => strLe cs.date p.date && strLe p.date ce.date)).length
              ⟨true,
                some
                  { metal := metal
                    startDate := cs.date
                    endDate := ce.date
                    startDateDisplay := cs.displayDate
                    endDateDisplay := ce.displayDate
                    startPrice := cs.price
                    endPrice := ce.price
                    absoluteChange := growth.absoluteChange
                    percentageChange := growth.percentageChange
                    direction := growth.direction
                    period := period
                    dataPoints := dp },
                none⟩
          | _, _ =>
            ⟨false, none,
              some ("Could not find data for the requested date range. Available data: " ++
                ((data.head?.map HPoint.displayDate).getD "") ++ " to " ++
                ((data.getLast?.map HPoint.displayDate).getD ""))⟩

/-! ### Claim C4: relative-period parsing -/

/-- Chronological order on (year, month) periods. -/
def periodLt (a b : ℤ × ℤ) : Prop := a.1 < b.1 ∨ (a.1 = b.1 ∧ a.2 < b.2)

def periodLe (a b : ℤ × ℤ) : Prop := periodLt a b ∨ a = b

theorem periodLe_mk (y1 m1 y2 m2 : ℤ)
    (h : y1 < y2 ∨ (y1 = y2 ∧ m1 < m2) ∨ (y1 = y2 ∧ m1 = m2)) :
    periodLe (y1, m1) (y2, m2) := by
  unfold periodLe periodLt
  rcases h with h | h | h
  · exact Or.inl (Or.inl h)
  · exact Or.inl (Or.inr h)
  · exact Or.inr (by rw [h.1, h.2])

theorem adjustMonthFuel_spec : ∀ (k : ℕ) (y m : ℤ), (1 - m).toNat ≤ k → m ≤ 12 →
    1 ≤ (adjustMonthFuel k y m).2 ∧ (adjustMonthFuel k y m).2 ≤ 12 ∧
      12 * (adjustMonthFuel k y m).1 + (adjustMonthFuel k y m).2 = 12 * y + m := by
  intro k
  induction k with
  | zero =>
    intro y m hk hm
    refine ⟨?_, ?_, ?_⟩
    · show (1 : ℤ) ≤ m
      omega
    · show m ≤ 12
      omega
    · show 12 * y + m = 12 * y + m
      rfl
  | succ k ih =>
    intro y m hk hm
    by_cases hm0 : m ≤ 0
    · have hstep : adjustMonthFuel (k + 1) y m = adjustMonthFuel k (y - 1) (m + 12) := by
        rw [adjustMonthFuel]
        rw [if_pos hm0]
      rw [hstep]
      have := ih (y - 1) (m + 12) (by omega) (by omega)
      omega
    · have hstep : adjustMonthFuel (k + 1) y m = (y, m) := by
        rw [adjustMonthFuel]
        rw [if_neg hm0]
      rw [hstep]
      refine ⟨?_, ?_, ?_⟩
      · show (1 : ℤ) ≤ m
        omega
      · show m ≤ 12
        omega
      · show 12 * y + m = 12 * y + m
        rfl

theorem adjustMonth_spec (y m : ℤ) (hm : m ≤ 12) :
    1 ≤ (adjustMonth y m).2 ∧ (adjustMonth y m).2 ≤ 12 ∧
      12 * (adjustMonth y m).1 + (adjustMonth y m).2 = 12 * y + m :=
  adjustMonthFuel_spec _ y m le_rfl hm

theorem adjustMonth_le_latest (k : ℕ) :
    periodLe (adjustMonth 2025 (9 - (k : ℤ))) latestPeriod := by
  obtain ⟨h1, h2, h3⟩ := adjustMonth_spec 2025 (9 - (k : ℤ)) (by omega)
  rcases hp : adjustMonth 2025 (9 - (k : ℤ)) with ⟨py, pm⟩
  rw [hp] at h1 h2 h3
  have h1' : 1 ≤ pm := h1
  have h2' : pm ≤ 12 := h2
  have h3' : 12 * py + pm = 12 * 2025 + (9 - (k : ℤ)) := h3
  apply periodLe_mk
  omega

/-- The start period produced by stepping back `k` months from 2025M9
equals the latest period exactly when `k = 0` and is strictly before it
exactly when `1 ≤ k`. -/
theorem adjustMonth_strict (k : ℕ) :
    (adjustMonth 2025 (9 - (k : ℤ)) = latestPeriod ↔ k = 0) ∧
    (periodLt (adjustMonth 2025 (9 - (k : ℤ))) latestPeriod ↔ 1 ≤ k) := by
  obtain ⟨h1, h2, h3⟩ := adjustMonth_spec 2025 (9 - (k : ℤ)) (by omega)
  rcases hp : adjustMonth 2025 (9 - (k : ℤ)) with ⟨py, pm⟩
  rw [hp] at h1 h2 h3
  have h1' : 1 ≤ pm := h1
  have h2' : pm ≤ 12 := h2
  have h3' : 12 * py + pm = 12 * 2025 + (9 - (k : ℤ)) := h3
  unfold latestPeriod periodLt
  dsimp only
  simp only [Prod.mk.injEq]
  refine ⟨⟨fun h => by omega, fun h => by omega⟩, ⟨?_, ?_⟩⟩
  · rintro (h | ⟨hy, hm⟩) <;> omega
  · intro hk
    by_cases hy : py < 2025
    · exact Or.inl hy
    · exact Or.inr ⟨by omega, by omega⟩

/-- The years-branch start `(2025 - n, 9)` equals the latest period exactly
when `n = 0` and is strictly before it exactly when `1 ≤ n`. -/
theorem years_strict (n : ℕ) :
    ((2025 - (n : ℤ), (9 : ℤ)) = latestPeriod ↔ n = 0) ∧
    (periodLt (2025 - (n : ℤ), (9 : ℤ)) latestPeriod ↔ 1 ≤ n) := by
  unfold latestPeriod periodLt
  dsimp only
  simp only [Prod.mk.injEq]
  constructor
  · constructor
    · rintro ⟨h1, h2⟩
      omega
    · intro h
      subst h
      exact ⟨by omega, trivial⟩
  · constructor
    · rintro (h | ⟨h1, h2⟩) <;> omega
    · intro hn
      exact Or.inl (by omega)

/-- `Math.round(n / 4.33)` is zero exactly for weeks counts of at most 2. -/
theorem monthsBackOfWeeks_eq_zero (n : ℕ) :
    (monthsBackOfWeeks n = 0 ↔ n ≤ 2) ∧ (1 ≤ monthsBackOfWeeks n ↔ 3 ≤ n) := by
  unfold monthsBackOfWeeks
  omega

/-- With a mandatory digits capture, a successful digits-then-unit match
always carries a captured number. -/
theorem matchNumUnitAt_false_not_none (unit cs : List Char) (r : Option ℕ)
    (hm : matchNumUnitAt unit false cs = some r) : ∃ n, r = some n := by
  unfold matchNumUnitAt at hm
  dsimp only at hm
  cases he : (readDigits cs).1.isEmpty with
  | true => simp [he] at hm
  | false =>
    simp [he] at hm
    exact ⟨digitsToNat (readDigits cs).1, hm.2.symm⟩

/-- With a mandatory digits capture, `searchNumUnit` never returns a match
without a captured number. -/
theorem searchNumUnit_false_not_none (unit : List Char) : ∀ cs : List Char,
    searchNumUnit unit false cs ≠ some none := by
  intro cs
  induction cs with
  | nil => simp [searchNumUnit]
  | cons c t ih =>
    unfold searchNumUnit
    cases hm : matchNumUnitAt unit false (c :: t) with
    | none => exact ih
    | some r =>
      intro hcon
      obtain ⟨n, hn⟩ := matchNumUnitAt_false_not_none unit (c :: t) r hm
      rw [hn] at hcon
      exact Option.noConfusion (Option.some_inj.mp hcon)

/-- C4 (amended): every successfully parsed relative period is anchored to
the dataset's hardcoded latest period 2025M9 — the end period always
equals it and the start period is never chronologically after it — and,
per matching branch, the start is strictly before the latest period
exactly when the effective offset is at least one month: for a weeks
count exactly when it is at least 3 (`Math.round(N / 4.33) ≥ 1`), for a
months count exactly when it is at least 1, and for a years capture
exactly when the captured-or-defaulted count is at least 1; in the
remaining cases (weeks counts 0-2, counts of 0) the start equals the
latest period. -/
theorem relative_period_anchoring :
    ∀ (s : String) (pr : (ℤ × ℤ) × (ℤ × ℤ)), parseRelativePeriodParts s = .ok pr →
      pr.2 = latestPeriod ∧ periodLe pr.1 latestPeriod ∧
      (∀ n, searchNumUnit "week".data false s.data = some (some n) →
        (periodLt pr.1 latestPeriod ↔ 3 ≤ n) ∧ (pr.1 = latestPeriod ↔ n ≤ 2)) ∧
      (searchNumUnit "week".data false s.data = none →
        ∀ n, searchNumUnit "month".data false s.data = some (some n) →
          (periodLt pr.1 latestPeriod ↔ 1 ≤ n) ∧ (pr.1 = latestPeriod ↔ n = 0)) ∧
      (searchNumUnit "week".data false s.data = none →
        searchNumUnit "month".data false s.data = none →
        ∀ cap, searchNumUnit "year".data true s.data = some cap →
          (periodLt pr.1 latestPeriod ↔ 1 ≤ cap.getD 1) ∧
          (pr.1 = latestPeriod ↔ cap.getD 1 = 0)) := by
  intro s pr h
  unfold parseRelativePeriodParts at h
  rcases hw : searchNumUnit "week".data false s.data with _ | cap
  · rw [hw] at h
    rcases hm : searchNumUnit "month".data false s.data with _ | capm
    · rw [hm] at h
      rcases hy : searchNumUnit "year".data true s.data with _ | capy
      · rw [hy] at h
        exact absurd h (by simp)
      · rw [hy] at h
        simp only [Except.ok.injEq] at h
        subst h
        obtain ⟨hyeq, hylt⟩ := years_strict (capy.getD 1)
        refine ⟨rfl, ?_, ?_, ?_, ?_⟩
        · unfold periodLe
          by_cases h0 : capy.getD 1 = 0
          · exact Or.inr (hyeq.mpr h0)
          · exact Or.inl (hylt.mpr (by omega))
        · intro n hcon
          exact absurd hcon (by simp)
        · intro _ n hcon
          exact absurd hcon (by simp)
        · intro _ _ cap hcap
          rw [← Option.some_inj.mp hcap]
          exact ⟨hylt, hyeq⟩
    · rcases capm with _ | n
      · exact absurd hm (searchNumUnit_false_not_none _ _)
      · rw [hm] at h
        simp only [Except.ok.injEq] at h
        subst h
        obtain ⟨hmeq, hmlt⟩ := adjustMonth_strict n
        refine ⟨rfl, ?_, ?_, ?_, ?_⟩
        · unfold periodLe
          by_cases h0 : n = 0
          · exact Or.inr (hmeq.mpr h0)
          · exact Or.inl (hmlt.mpr (by omega))
        · intro n2 hcon
          exact absurd hcon (by simp)
        · intro _ n2 hn2
          have heq2 : n = n2 := Option.some_inj.mp (Option.some_inj.mp hn2)
          subst heq2
          exact ⟨hmlt, hmeq⟩
        · intro _ hcon
          exact absurd hcon (by simp)
  · rcases cap with _ | n
    · exact absurd hw (searchNumUnit_false_not_none _ _)
    · rw [hw] at h
      simp only [Except.ok.injEq] at h
      subst h
      obtain ⟨hweq, hwlt⟩ := adjustMonth_strict (monthsBackOfWeeks n)
      obtain ⟨hz, ho⟩ := monthsBackOfWeeks_eq_zero n
      refine ⟨rfl, ?_, ?_, ?_, ?_⟩
      · unfold periodLe
        by_cases h0 : monthsBackOfWeeks n = 0
        · exact Or.inr (hweq.mpr h0)
        · exact Or.inl (hwlt.mpr (by omega))
      · intro n2 hn2
        have heq2 : n = n2 := Option.some_inj.mp (Option.some_inj.mp hn2)
        subst heq2
        exact ⟨hwlt.trans ho, hweq.trans hz⟩
      · intro hcon
        exact absurd hcon (by simp)
      · intro hcon
        exact absurd hcon (by simp)

/-- C4 witness: at "last 10 weeks" the parser captures 10 weeks
(Math.round(10/4.33) = 2 months back), the end is the latest period and
the start 2025M7 is strictly before it. -/
theorem relative_period_witness :
    parseRelativePeriodParts "last 10 weeks" =
      .ok ((((2025 : ℤ), (7 : ℤ)), latestPeriod)) ∧
    searchNumUnit "week".data false "last 10 weeks".data = some (some 10) ∧
    ((((2025 : ℤ), (7 : ℤ)), latestPeriod).2 = latestPeriod ∧
      periodLe ((2025 : ℤ), (7 : ℤ)) latestPeriod ∧
      periodLt ((2025 : ℤ), (7 : ℤ)) latestPeriod) := by
  have h := relative_period_anchoring "last 10 weeks"
    (((2025 : ℤ), (7 : ℤ)), latestPeriod) rfl
  exact ⟨rfl, rfl, h.1, h.2.1, (h.2.2.1 10 rfl).1.mpr (by omega)⟩

/-- C4 counterexample: "last 2 weeks" matches `last N weeks`, but
`Math.round(2 / 4.33) = 0`, so the parsed start period equals the
dataset's latest period 2025M9 instead of being strictly before it. -/
theorem relative_period_counterexample :
    parseRelativePeriodParts "last 2 weeks" = .ok (((2025 : ℤ), (9 : ℤ)), (2025, 9)) ∧
      ¬ periodLt ((2025 : ℤ), (9 : ℤ)) ((2025 : ℤ), (9 : ℤ)) := by
  refine ⟨rfl, ?_⟩
  rintro (h | ⟨_, h⟩)
  · exact absurd (show (2025 : ℤ) < 2025 from h) (by omega)
  · exact absurd (show (9 : ℤ) < 9 from h) (by omega)

/-! ### Lexicographic-order facts and sort facts (for claims C5, C6) -/

theorem lexLt_asymm : ∀ x y, lexLt x y = true → lexLt y x = false := by
  intro x
  induction x with
  | nil =>
    intro y h
    cases y with
    | nil => exact Bool.noConfusion h
    | cons b bs => rfl
  | cons a as ih =>
    intro y h
    cases y with
    | nil => exact Bool.noConfusion h
    | cons b bs =>
      unfold lexLt at h ⊢
      by_cases hab : a < b
      · rw [if_neg (lt_asymm hab), if_pos hab]
      · by_cases hba : b < a
        · rw [if_neg hab, if_pos hba] at h
          exact absurd h (by simp)
        · rw [if_neg hab, if_neg hba] at h
          rw [if_neg hba, if_neg hab]
          exact ih bs h

theorem lexLt_trans : ∀ x y z, lexLt x y = true → lexLt y z = true → lexLt x z = true := by
  intro x
  induction x with
  | nil =>
    intro y z hxy hyz
    cases y with
    | nil => exact Bool.noConfusion hxy
    | cons b bs =>
      cases z with
      | nil => exact Bool.noConfusion hyz
      | cons c cs => rfl
  | cons a as ih =>
    intro y z hxy hyz
    cases y with
    | nil => exact Bool.noConfusion hxy
    | cons b bs =>
      cases z with
      | nil => exact Bool.noConfusion hyz
      | cons c cs =>
        unfold lexLt at hxy hyz ⊢
        by_cases hab : a < b
        · by_cases hbc : b < c
          · rw [if_pos (lt_trans hab hbc)]
          · by_cases hcb : c < b
            · rw [if_neg hbc, if_pos hcb] at hyz
              exact absurd hyz (by simp)
            · have hbc' : b = c := le_antisymm (not_lt.mp hcb) (not_lt.mp hbc)
              subst hbc'
              rw [if_pos hab]
        · by_cases hba : b < a
          · rw [if_neg hab, if_pos hba] at hxy
            exact absurd hxy (by simp)
          · have hab' : a = b := le_antisymm (not_lt.mp hba) (not_lt.mp hab)
            subst hab'
            rw [if_neg hab, if_neg hba] at hxy
            by_cases hac : a < c
            · rw [if_pos hac]
            · by_cases hca : c < a
              · rw [if_neg hac, if_pos hca] at hyz
                exact absurd hyz (by simp)
              · rw [if_neg hac, if_neg hca] at hyz ⊢
                exact ih bs cs hxy hyz

theorem lexLe_total (x y : List Char) : lexLe x y = true ∨ lexLe y x = true := by
  unfold lexLe
  by_cases h : lexLt y x = true
  · right
    rw [lexLt_asymm y x h]
    rfl
  · left
    rw [Bool.not_eq_true] at h
    rw [h]
    rfl

theorem lexLe_trans (x y z : List Char) (hxy : lexLe x y = true) (hyz : lexLe y z = true) :
    lexLe x z = true := by
  unfold lexLe at hxy hyz ⊢
  rw [Bool.not_eq_eq_eq_not, Bool.not_true] at hxy hyz ⊢
  by_contra hzx
  rw [Bool.not_eq_false] at hzx
  by_cases hyx : lexLt y x = true
  · rw [hyx] at hxy
    exact absurd hxy (by simp)
  · by_cases hxy' : lexLt x y = true
    · have := lexLt_trans z x y hzx hxy'
      rw [this] at hyz
      exact absurd hyz (by simp)
    · -- neither x < y nor y < x: x = y? not needed: use trichotomy-free route
      -- from ¬(x<y) and ¬(y<x), x and y are lexicographically equal; then z<x gives z<y
      have htri : x = y := by
        clear hxy hyz hzx
        induction x generalizing y with
        | nil =>
          cases y with
          | nil => rfl
          | cons b bs => exact absurd (by rfl : lexLt [] (b :: bs) = true) hxy'
        | cons a as ihx =>
          cases y with
          | nil => exact absurd (by rfl : lexLt [] (a :: as) = true) hyx
          | cons b bs =>
            unfold lexLt at hxy' hyx
            by_cases hab : a < b
            · rw [if_pos hab] at hxy'
              exact absurd rfl hxy'
            · by_cases hba : b < a
              · rw [if_pos hba] at hyx
                exact absurd rfl hyx
              · have hab' : a = b := le_antisymm (not_lt.mp hba) (not_lt.mp hab)
                subst hab'
                rw [if_neg hab, if_neg hba] at hxy' hyx
                rw [ihx bs hyx hxy']
      subst htri
      rw [hzx] at hyz
      exact absurd hyz (by simp)

theorem strLe_total (a b : String) : strLe a b = true ∨ strLe b a = true :=
  lexLe_total a.data b.data

theorem strLe_trans (a b c : String) (h1 : strLe a b = true) (h2 : strLe b c = true) :
    strLe a c = true :=
  lexLe_trans a.data b.data c.data h1 h2

theorem mem_insertBy {α : Type} (le : α → α → Bool) (x a : α) (l : List α) :
    a ∈ insertBy le x l ↔ a = x ∨ a ∈ l := by
  induction l with
  | nil => simp [insertBy]
  | cons y ys ih =>
    unfold insertBy
    by_cases h : le x y = true
    · rw [if_pos h]
      simp [List.mem_cons]
    · rw [if_neg h]
      simp only [List.mem_cons, ih]
      tauto

theorem insertBy_ne_nil {α : Type} (le : α → α → Bool) (x : α) (l : List α) :
    insertBy le x l ≠ [] := by
  cases l with
  | nil => simp [insertBy]
  | cons y ys =>
    unfold insertBy
    by_cases h : le x y = true
    · rw [if_pos h]
      simp
    · rw [if_neg h]
      simp

theorem sortBy_eq_nil {α : Type} (le : α → α → Bool) (l : List α) :
    sortBy le l = [] ↔ l = [] := by
  cases l with
  | nil => simp [sortBy]
  | cons x xs =>
    simp only [sortBy]
    constructor
    · intro h
      exact absurd h (insertBy_ne_nil le x (sortBy le xs))
    · intro h
      exact absurd h (by simp)

theorem mem_sortBy {α : Type} (le : α → α → Bool) (a : α) (l : List α) :
    a ∈ sortBy le l ↔ a ∈ l := by
  induction l with
  | nil => simp [sortBy]
  | cons x xs ih =>
    simp only [sortBy, mem_insertBy, ih, List.mem_cons]

/-- The head of an insertion sort is a minimum of the list, for a total
transitive comparator. -/
theorem sortBy_head_min {α : Type} (le : α → α → Bool)
    (htot : ∀ a b, le a b = true ∨ le b a = true)
    (htrans : ∀ a b c, le a b = true → le b c = true → le a c = true) :
    ∀ (l : List α) (p : α), (sortBy le l).head? = some p →
      p ∈ l ∧ ∀ q ∈ l, le p q = true := by
  intro l
  induction l with
  | nil =>
    intro p hp
    simp [sortBy] at hp
  | cons x xs ih =>
    intro p hp
    rw [show sortBy le (x :: xs) = insertBy le x (sortBy le xs) from rfl] at hp
    cases hsx : sortBy le xs with
    | nil =>
      rw [hsx] at hp
      simp only [insertBy, List.head?_cons, Option.some.injEq] at hp
      have hxs : xs = [] := (sortBy_eq_nil le xs).mp hsx
      subst hxs
      refine ⟨by rw [← hp]; simp, ?_⟩
      intro q hq
      simp only [List.mem_singleton] at hq
      rw [← hp, hq]
      rcases htot x x with h | h <;> exact h
    | cons y ys =>
      rw [hsx] at hp
      unfold insertBy at hp
      by_cases hxy : le x y = true
      · rw [if_pos hxy] at hp
        simp only [List.head?_cons, Option.some.injEq] at hp
        refine ⟨by rw [← hp]; simp, ?_⟩
        intro q hq
        rw [← hp]
        rcases List.mem_cons.mp hq with hq | hq
        · rw [hq]
          rcases htot x x with h | h <;> exact h
        · have hy := ih y (by rw [hsx]; rfl)
          exact htrans _ _ _ hxy (hy.2 q hq)
      · rw [if_neg hxy] at hp
        simp only [List.head?_cons, Option.some.injEq] at hp
        have hy := ih y (by rw [hsx]; rfl)
        refine ⟨by rw [← hp]; exact List.mem_cons_of_mem _ hy.1, ?_⟩
        intro q hq
        rw [← hp]
        rcases List.mem_cons.mp hq with hq | hq
        · rw [hq]
          rcases htot x y with h | h
          · exact absurd h hxy
          · exact h
        · exact hy.2 q hq

/-! ### Claim C5: equal resolved periods are rejected -/

/-- C5: whenever the resolved start and end data points fall on the same
period (equal date strings), the historical-data tool returns a failure
with a descriptive message, never a success reporting zero change. -/
theorem same_period_rejected (dataOrErr : Except String (List HPoint))
    (metal : String) (startDate endDate relativePeriod : Option String)
    (data : List HPoint) (as ae : String) (cs ce : HPoint)
    (hdata : dataOrErr = .ok data)
    (hmetal : metal ∈ validMetals)
    (hne : data.isEmpty = false)
    (hdates : determineDates data startDate endDate relativePeriod = .ok (as, ae))
    (hs : resolveStart data as = some cs)
    (he : resolveEnd data ae = some ce)
    (heq : cs.date = ce.date) :
    (executeHistoricalDataTool dataOrErr metal startDate endDate relativePeriod).success
        = false ∧
      (executeHistoricalDataTool dataOrErr metal startDate endDate relativePeriod).data
        = none ∧
      (executeHistoricalDataTool dataOrErr metal startDate endDate relativePeriod).error
        = some ("Start and end dates are the same (" ++ cs.displayDate ++
          "). Please provide a different date range.") := by
  subst hdata
  unfold executeHistoricalDataTool
  rw [if_neg (not_not_intro hmetal)]
  simp only [hne, Bool.false_eq_true, if_false, hdates, hs, he]
  rw [if_pos heq]
  exact ⟨rfl, rfl, rfl⟩

/-- A single-point dataset, modelled from the spec (monthly data ending
at 2025M9). -/
def singlePoint : List HPoint := [⟨"2025M9", "September 2025", 100⟩]

/-- C5 witness: requesting 2025-09 .. 2025-09 on the single-point dataset
resolves both ends to the same period and the tool fails. -/
theorem same_period_witness :
    (executeHistoricalDataTool (.ok singlePoint) "XAU" (some "2025-09") (some "2025-09")
        none).success = false ∧
      (executeHistoricalDataTool (.ok singlePoint) "XAU" (some "2025-09") (some "2025-09")
        none).data = none ∧
      (executeHistoricalDataTool (.ok singlePoint) "XAU" (some "2025-09") (some "2025-09")
        none).error = some ("Start and end dates are the same (" ++ "September 2025" ++
          "). Please provide a different date range.") :=
  same_period_rejected (.ok singlePoint) "XAU" (some "2025-09") (some "2025-09") none
    singlePoint "2025M9" "2025M9" ⟨"2025M9", "September 2025", 100⟩
    ⟨"2025M9", "September 2025", 100⟩ rfl (by decide) rfl rfl rfl rfl rfl

/-! ### Claim C6: date resolution is lexicographic, not chronological -/

instance (a b : ℤ × ℤ) : Decidable (periodLt a b) := by
  unfold periodLt
  infer_instance

/-- Chronological key of an internal date string. -/
def chronKey (s : String) : Option (ℤ × ℤ) :=
  (parseExcelDate s).map fun p => ((digitsToNat p.1.data : ℤ), (p.2 : ℤ))

/-- A spec-modelled dataset: monthly points January–September 2025 (the
bundled dataset file is not part of the sources; per the spec the data is
monthly with internal dates `YYYYMm`, sorted by `localeCompare`, ending at
2025M9). -/
def specDataset2025 : List HPoint :=
  [⟨"2025M1", "January 2025", 100⟩, ⟨"2025M2", "February 2025", 101⟩,
   ⟨"2025M3", "March 2025", 102⟩, ⟨"2025M4", "April 2025", 103⟩,
   ⟨"2025M5", "May 2025", 104⟩, ⟨"2025M6", "June 2025", 105⟩,
   ⟨"2025M7", "July 2025", 106⟩, ⟨"2025M8", "August 2025", 107⟩,
   ⟨"2025M9", "September 2025", 108⟩]

/-- C6 counterexample: for the requested period 2025M12 every data point
is chronologically before it, so there is no data point at or after the
requested start; yet start resolution returns February 2025, the
lexicographically smallest date-string ≥ "2025M12" — not a nearest
chronological at-or-after point. -/
theorem start_resolution_counterexample :
    findExact specDataset2025 "2025M12" = none ∧
      (resolveStart specDataset2025 "2025M12").map HPoint.date = some "2025M2" ∧
      chronKey "2025M2" = some (2025, 2) ∧
      chronKey "2025M12" = some (2025, 12) ∧
      periodLt (2025, 2) (2025, 12) ∧
      (specDataset2025.all fun p =>
        ((chronKey p.date).map fun k => decide (periodLt k (2025, 12))).getD false) = true := by
  refine ⟨rfl, rfl, rfl, rfl, by decide, by decide⟩

/-- C6 (amended): when the requested period has no exact match, start
resolution returns the data point whose date string is the
lexicographically least among those ≥ the requested string, and end
resolution the lexicographically greatest among those ≤ it (dates are
compared as strings, so with unpadded months this is not chronological
order — see the counterexample). -/
theorem date_resolution_lexicographic (data : List HPoint) (d : String)
    (hne : findExact data d = none) :
    (∀ p, resolveStart data d = some p →
      p ∈ data ∧ strLe d p.date = true ∧
        ∀ q ∈ data, strLe d q.date = true → strLe p.date q.date = true) ∧
    (∀ p, resolveEnd data d = some p →
      p ∈ data ∧ strLe p.date d = true ∧
        ∀ q ∈ data, strLe q.date d = true → strLe q.date p.date = true) := by
  constructor
  · intro p hp
    unfold resolveStart at hp
    rw [hne] at hp
    have hmin := sortBy_head_min (fun a b => strLe a.date b.date)
      (fun a b => strLe_total a.date b.date)
      (fun a b c h1 h2 => strLe_trans a.date b.date c.date h1 h2)
      (data.filter (fun p => strLe d p.date)) p hp
    obtain ⟨hmem, hall⟩ := hmin
    rw [List.mem_filter] at hmem
    refine ⟨hmem.1, hmem.2, ?_⟩
    intro q hq hdq
    exact hall q (List.mem_filter.mpr ⟨hq, hdq⟩)
  · intro p hp
    unfold resolveEnd at hp
    rw [hne] at hp
    have hmin := sortBy_head_min (fun a b => strLe b.date a.date)
      (fun a b => strLe_total b.date a.date)
      (fun a b c h1 h2 => strLe_trans c.date b.date a.date h2 h1)
      (data.filter (fun p => strLe p.date d)) p hp
    obtain ⟨hmem, hall⟩ := hmin
    rw [List.mem_filter] at hmem
    refine ⟨hmem.1, hmem.2, ?_⟩
    intro q hq hdq
    exact hall q (List.mem_filter.mpr ⟨hq, hdq⟩)

/-- C6 witness: on the two-point dataset {2025M1, 2025M3}, resolving the
absent period 2025M2 picks 2025M3 for the start side, which is in the
dataset, lexicographically ≥ the request, and minimal among such. -/
theorem date_resolution_witness :
    (⟨"2025M3", "March 2025", 101⟩ : HPoint) ∈
        [(⟨"2025M1", "January 2025", 95⟩ : HPoint), ⟨"2025M3", "March 2025", 101⟩] ∧
      strLe "2025M2" "2025M3" = true ∧ strLe "2025M3" "2025M3" = true := by
  have h := (date_resolution_lexicographic
    [⟨"2025M1", "January 2025", 95⟩, ⟨"2025M3", "March 2025", 101⟩] "2025M2" rfl).1
    ⟨"2025M3", "March 2025", 101⟩ rfl
  exact ⟨h.1, h.2.1, h.2.2 ⟨"2025M3", "March 2025", 101⟩ h.1 h.2.1⟩

/-! ## Chat orchestrator (src lib/llm/anthropic-service.ts, processChatWithLLM)

The provider calls and the tool executions are passed in as outcome
functions: `.error` stands for a thrown exception (rejected promise).
The orchestrator itself - the body of the big try/catch - makes no
assumption about them; the catch maps any exception to a failure result
carrying the apology string. -/

inductive Block where
  | text (s : String)
  | toolUse (id name input : String)
  | thinking

structure LLMResponse where
  content : List Block

/-- The fields of a stringified tool result that the orchestrator reads
back when extracting chart data. -/
structure ToolOut where
  content : String
  parsedSuccess : Bool
  hasDataPoints : Bool
  dataPayload : Option String

structure ChatResult where
  success : Bool
  response : Option String
  usedTool : Option Bool
  toolsUsed : Option (List String)
  chartData : Option String
  error : Option String

def apologyMsg : String :=
  "I\x27m sorry, I encountered an error processing your request. Please try again."

/-- The catch branch of `processChatWithLLM`. -/
def catchResult (e : String) : ChatResult :=
  { success := false, response := some apologyMsg, usedTool := none,
    toolsUsed := none, chartData := none, error := some e }

def isToolUse : Block → Bool
  | .toolUse _ _ _ => true
  | _ => false

def blockName : Block → String
  | .toolUse _ n _ => n
  | _ => ""

/-- `content.filter(text).map(text).join(' ')`. -/
def joinTexts (resp : LLMResponse) : String :=
  String.intercalate " "
    (resp.content.filterMap fun b =>
      match b with
      | .text s => some s
      | _ => none)

/-- The tool-execution loop: each `tool_use` block is dispatched; a thrown
exception aborts to the catch. -/
def runTools (dispatch : String → String → Except String ToolOut) :
    List Block → Except String (List ToolOut)
  | [] => .ok []
  | b :: bs =>
    match b with
    | .toolUse _ name input =>
      match dispatch name input with
      | .error e => .error e
      | .ok r =>
        match runTools dispatch bs with
        | .error e => .error e
        | .ok rs => .ok (r :: rs)
    | _ => runTools dispatch bs

/-- Chart-data extraction: the first tool result whose parsed content has
`data.dataPoints`, if it parsed as a success with a data payload. -/
def extractChart (results : List ToolOut) : Option String :=
  match results.find? (fun r => r.hasDataPoints) with
  | none => none
  | some r => if r.parsedSuccess then r.dataPayload else none

/-- `processChatWithLLM`: first provider call; if any `tool_use` blocks,
dispatch them all and make the second provider call; otherwise answer
directly.  Every exception is caught and mapped by `catchResult`. -/
def processChatWithLLM (firstCall : Except String LLMResponse)
    (dispatch : String → String → Except String ToolOut)
    (secondCall : Except String LLMResponse) : ChatResult :=
  match firstCall with
  | .error e => catchResult e
  | .ok resp =>
    if resp.content.any isToolUse then
      match runTools dispatch resp.content with
      | .error e => catchResult e
      | .ok results =>
        if 0 < results.length then
          match secondCall with
          | .error e => catchResult e
          | .ok finalResp =>
            { success := true
              response := some (joinTexts finalResp)
              usedTool := some true
              toolsUsed := some ((resp.content.filter isToolUse).map blockName)
              chartData :=
                if ((resp.content.filter isToolUse).map blockName).contains
                    "get_time_chart_data" then
                  extractChart results
                else none
              error := none }
        else
          { success := true, response := some (joinTexts resp),
            usedTool := some false, toolsUsed := none, chartData := none,
            error := none }
    else
      { success := true, response := some (joinTexts resp),
        usedTool := some false, toolsUsed := none, chartData := none,
        error := none }

/-! ### Claim C8 -/

/-- C8: the orchestrator is total (modelled: it returns a `ChatResult` for
every outcome of the provider calls and tool dispatch), and whenever the
provider call or any tool dispatch raises, the result is a failure with
the machine-readable error and the user-facing apology string; a failure
result never occurs otherwise. -/
theorem orchestrator_catches_everything
    (firstCall : Except String LLMResponse)
    (dispatch : String → String → Except String ToolOut)
    (secondCall : Except String LLMResponse) :
    ((processChatWithLLM firstCall dispatch secondCall).success = false →
      (processChatWithLLM firstCall dispatch secondCall).error.isSome = true ∧
      (processChatWithLLM firstCall dispatch secondCall).response = some apologyMsg) ∧
    (∀ e, firstCall = .error e → processChatWithLLM firstCall dispatch secondCall
      = catchResult e) ∧
    (∀ resp e, firstCall = .ok resp → resp.content.any isToolUse = true →
      runTools dispatch resp.content = .error e →
      processChatWithLLM firstCall dispatch secondCall = catchResult e) ∧
    ((processChatWithLLM firstCall dispatch secondCall).success = true →
      (processChatWithLLM firstCall dispatch secondCall).error = none) := by
  refine ⟨?_, ?_, ?_, ?_⟩
  · intro hfail
    unfold processChatWithLLM at *
    cases firstCall with
    | error e => exact ⟨rfl, rfl⟩
    | ok resp =>
      dsimp only at hfail ⊢
      by_cases hany : resp.content.any isToolUse = true
      · rw [if_pos hany] at hfail ⊢
        cases hrt : runTools dispatch resp.content with
        | error e =>
          exact ⟨rfl, rfl⟩
        | ok results =>
          rw [hrt] at hfail
          dsimp only at hfail ⊢
          by_cases hlen : 0 < results.length
          · rw [if_pos hlen] at hfail ⊢
            cases secondCall with
            | error e => exact ⟨rfl, rfl⟩
            | ok finalResp => exact absurd hfail (by simp)
          · rw [if_neg hlen] at hfail
            exact absurd hfail (by simp)
      · rw [if_neg hany] at hfail
        exact absurd hfail (by simp)
  · intro e he
    subst he
    rfl
  · intro resp e hf hany hrt
    subst hf
    unfold processChatWithLLM
    dsimp only
    rw [if_pos hany, hrt]
  · intro hok
    unfold processChatWithLLM at *
    cases firstCall with
    | error e => exact absurd hok (by simp [catchResult])
    | ok resp =>
      dsimp only at hok ⊢
      by_cases hany : resp.content.any isToolUse = true
      · rw [if_pos hany] at hok ⊢
        cases hrt : runTools dispatch resp.content with
        | error e =>
          rw [hrt] at hok
          dsimp only at hok
          exact absurd hok (by simp [catchResult])
        | ok results =>
          rw [hrt] at hok
          dsimp only at hok ⊢
          by_cases hlen : 0 < results.length
          · rw [if_pos hlen] at hok ⊢
            cases secondCall with
            | error e => exact absurd hok (by simp [catchResult])
            | ok finalResp => rfl
          · rw [if_neg hlen]
      · rw [if_neg hany]

/-- C8 witness: a failing provider call is mapped to the apology-carrying
failure result. -/
theorem orchestrator_witness :
    (processChatWithLLM (.error "boom") (fun _ _ => .ok ⟨"", true, false, none⟩)
        (.ok ⟨[Block.text "hi"]⟩)).error.isSome = true ∧
      (processChatWithLLM (.error "boom") (fun _ _ => .ok ⟨"", true, false, none⟩)
        (.ok ⟨[Block.text "hi"]⟩)).response = some apologyMsg :=
  (orchestrator_catches_everything (.error "boom")
    (fun _ _ => .ok ⟨"", true, false, none⟩) (.ok ⟨[Block.text "hi"]⟩)).1 rfl

/-! ## Chat HTTP route (src app/api/chat/route.ts, POST)

`parse` is the outcome of `request.json()` followed by the destructuring
`const { message, conversationHistory = [] } = body` (so an absent history
arrives as an array); `proc` is the outcome of the
`processChatWithLangChain` call.  A `.error` is a thrown exception, which
lands in the route's catch. -/

inductive JsVal where
  | str (s : String)
  | arr
  | undef
  | other (truthy : Bool)

def jsTruthy : JsVal → Bool
  | .str s => !(s = "")
  | .arr => true
  | .undef => false
  | .other t => t

def isStringVal : JsVal → Bool
  | .str _ => true
  | _ => false

def isArrayVal : JsVal → Bool
  | .arr => true
  | _ => false

/-- The shape of `processChatWithLangChain` results as the route reads
them. -/
structure ProcResult where
  success : Bool
  error : Option String
  response : Option String
  usedTool : Option Bool
  toolResults : Option String
  toolsUsed : Option (List String)
  chartData : Option String

/-- JSON body of the route response; `none` is an absent field. -/
structure RouteBody where
  success : Option Bool
  error : Option String
  details : Option String
  message : Option String
  response : Option String
  usedTool : Option Bool
  toolResults : Option String
  toolsUsed : Option (List String)
  chartData : Option String
  timestamp : Option String

structure RouteResponse where
  status : ℕ
  body : RouteBody

def emptyBody : RouteBody :=
  ⟨none, none, none, none, none, none, none, none, none, none⟩

/-- The fallback apology of the 200 error branch. -/
def apology200 : String := "Sorry, I encountered an error processing your request."

/-- The apology of the catch (500) branch. -/
def apology500 : String :=
  "I\x27m sorry, I encountered an error processing your request. Please try again."

/-- The catch branch of the route handler. -/
def routeCatch (e : String) : RouteResponse :=
  ⟨500, { emptyBody with
      error := some "Internal server error"
      message := some e
      response := some apology500 }⟩

/-- The route handler `POST`. -/
def chatRoutePOST (parse : Except String (JsVal × JsVal))
    (proc : Except String ProcResult) (nowIso : String) : RouteResponse :=
  match parse with
  | .error e => routeCatch e
  | .ok (message, history) =>
    if !(jsTruthy message && isStringVal message) then
      ⟨400, { emptyBody with
          error := some "Message is required and must be a string" }⟩
    else if jsTruthy history && !isArrayVal history then
      ⟨400, { emptyBody with
          error := some "Conversation history must be an array" }⟩
    else
      match proc with
      | .error e => routeCatch e
      | .ok result =>
        if result.success = false then
          ⟨200, { emptyBody with
              success := some false
              error := some "Failed to process chat message"
              details := result.error
              response := some (jsOrStr result.response apology200) }⟩
        else
          ⟨200, { emptyBody with
              success := some true
              response := result.response
              usedTool := some (result.usedTool.getD false)
              toolResults := result.toolResults
              toolsUsed := some (result.toolsUsed.getD [])
              chartData := result.chartData
              timestamp := some nowIso }⟩

/-! ### Claim C9 -/

/-- C9 (amended): on an internal error the route returns 200 with
`success: false`, an `error` field and an apology `response` when the
error originated in LLM processing, and 500 with an `error` field and the
apology `response` — but with no `success` field at all — when the error
was thrown inside the route handler. -/
theorem route_error_shape (parse : Except String (JsVal × JsVal))
    (proc : Except String ProcResult) (nowIso : String) :
    (∀ e, parse = .error e →
      (chatRoutePOST parse proc nowIso).status = 500 ∧
      (chatRoutePOST parse proc nowIso).body.success = none ∧
      (chatRoutePOST parse proc nowIso).body.error = some "Internal server error" ∧
      (chatRoutePOST parse proc nowIso).body.response = some apology500) ∧
    (∀ m h e, parse = .ok (m, h) → (jsTruthy m && isStringVal m) = true →
      (jsTruthy h && !isArrayVal h) = false → proc = .error e →
      (chatRoutePOST parse proc nowIso).status = 500 ∧
      (chatRoutePOST parse proc nowIso).body.success = none ∧
      (chatRoutePOST parse proc nowIso).body.response = some apology500) ∧
    (∀ m h r, parse = .ok (m, h) → (jsTruthy m && isStringVal m) = true →
      (jsTruthy h && !isArrayVal h) = false → proc = .ok r → r.success = false →
      (chatRoutePOST parse proc nowIso).status = 200 ∧
      (chatRoutePOST parse proc nowIso).body.success = some false ∧
      (chatRoutePOST parse proc nowIso).body.error = some "Failed to process chat message" ∧
      (chatRoutePOST parse proc nowIso).body.response = some (jsOrStr r.response apology200)) := by
  refine ⟨?_, ?_, ?_⟩
  · intro e he
    subst he
    exact ⟨rfl, rfl, rfl, rfl⟩
  · intro m h e hp hm hh hproc
    subst hp
    subst hproc
    unfold chatRoutePOST
    dsimp only
    rw [hm]
    rw [show (!true) = false from rfl]
    rw [if_neg (by simp)]
    rw [hh]
    rw [if_neg (by simp)]
    exact ⟨rfl, rfl, rfl⟩
  · intro m h r hp hm hh hproc hfail
    subst hp
    subst hproc
    unfold chatRoutePOST
    dsimp only
    rw [hm]
    rw [show (!true) = false from rfl]
    rw [if_neg (by simp)]
    rw [hh]
    rw [if_neg (by simp)]
    rw [if_pos hfail]
    exact ⟨rfl, rfl, rfl, rfl⟩

/-- C9 witness: a valid request whose LLM processing failed gets the
200-with-success-false shape. -/
theorem route_error_witness :
    (chatRoutePOST (.ok (.str "hi", .arr))
        (.ok ⟨false, some "provider down", some apology200, none, none, none, none⟩)
        "t").status = 200 ∧
      (chatRoutePOST (.ok (.str "hi", .arr))
        (.ok ⟨false, some "provider down", some apology200, none, none, none, none⟩)
        "t").body.success = some false ∧
      (chatRoutePOST (.ok (.str "hi", .arr))
        (.ok ⟨false, some "provider down", some apology200, none, none, none, none⟩)
        "t").body.error = some "Failed to process chat message" ∧
      (chatRoutePOST (.ok (.str "hi", .arr))
        (.ok ⟨false, some "provider down", some apology200, none, none, none, none⟩)
        "t").body.response = some (jsOrStr (some apology200) apology200) :=
  (route_error_shape (.ok (.str "hi", .arr))
    (.ok ⟨false, some "provider down", some apology200, none, none, none, none⟩)
    "t").2.2 (.str "hi") .arr
    ⟨false, some "provider down", some apology200, none, none, none, none⟩
    rfl (by decide) (by decide) rfl rfl

/-- C9 counterexample: an exception thrown in the route handler itself
(for example a JSON parse error) produces a 500 whose body has an `error`
field and the apology `response` but no `success` field — the claim that
every internal-error body contains `success: false` fails here. -/
theorem route_counterexample :
    (chatRoutePOST (.error "Unexpected token in JSON")
        (.ok ⟨true, none, some "ok", none, none, none, none⟩) "t").status = 500 ∧
      (chatRoutePOST (.error "Unexpected token in JSON")
        (.ok ⟨true, none, some "ok", none, none, none, none⟩) "t").body.success = none ∧
      ¬ (chatRoutePOST (.error "Unexpected token in JSON")
        (.ok ⟨true, none, some "ok", none, none, none, none⟩) "t").body.success
          = some false :=
  ⟨rfl, rfl, by intro h; exact Option.noConfusion h⟩

/-! ## Time-chart-data tool (src lib/tools/time-chart-data)

The tool reads `data/precious_metals.json` inside its try/catch; the file
read and `JSON.parse` appear as the `Except`-valued `fileData` argument
(`.error` for a missing file or a parse exception).  Wall-clock `new Date()`
is passed in as a (year, month) pair; the day-of-month (which can make
`setMonth` overflow into the next month when run on the 29th-31st) is
abstracted away.  `parseFloat(x.toFixed(2))` is modelled as exact rounding
to two decimals (ties toward `+oo`, as `toFixed` specifies). -/

/-- `METAL_NAMES`: API symbols to JSON keys. -/
def metalNameMap : List (String × String) :=
  [("XAU", "Gold"), ("XAG", "Silver"), ("XPT", "Platinum"), ("XPD", "Palladium")]

def metalJsonName (m : String) : Option String :=
  (metalNameMap.find? (fun e => e.1 == m)).map (fun e => e.2)

/-- One entry of the JSON data: a `MM/YYYY` date string and a price. -/
structure JEntry where
  date : String
  price : ℚ

/-- The parsed `precious_metals.json`: metal name to entry list. -/
abbrev PreciousMetalsData := List (String × List JEntry)

/-- Linear month index of a (year, month) pair, months numbered 1..12. -/
def ymToIdx (p : ℤ × ℤ) : ℤ := 12 * p.1 + (p.2 - 1)

/-- Inverse of `ymToIdx` (floor division, matching JS `Date` month
normalization for any sign). -/
def idxToYm (i : ℤ) : ℤ × ℤ := (Int.fdiv i 12, Int.fmod i 12 + 1)

/-- `String(month).padStart(2, '0')`. -/
def pad2 (m : ℤ) : String :=
  if 0 ≤ m ∧ m < 10 then "0" ++ toString m else toString m

/-- `` `${y}-${String(m).padStart(2, '0')}` ``. -/
def renderYm (p : ℤ × ℤ) : String := toString p.1 ++ "-" ++ pad2 p.2

/-- `lowerPeriod.includes(pat)` for an already-lowercased haystack and a
lowercase pattern (so the case-insensitive prefix test coincides with the
case-sensitive one JS performs). -/
def containsSub (pat : List Char) : List Char → Bool
  | [] => pat.isEmpty
  | c :: cs => isPrefixCI pat (c :: cs) || containsSub pat cs

/-- The chart tool's own `parseRelativePeriod` (distinct from the
historical-data one): wall-clock anchored, with unit keywords detected by
`includes` on the lowercased string and counts captured by
`/(\d+)\s*unit/`. -/
def chartParseRelative (now : ℤ × ℤ) (rp : String) : String × String :=
  let lower := (toLowerStr rp).data
  let monthsBack : ℤ :=
    if containsSub "month".data lower then
      match searchNumUnit "month".data false lower with
      | some (some n) => (n : ℤ)
      | _ => 12
    else if containsSub "year".data lower then
      (match searchNumUnit "year".data false lower with
       | some (some n) => (n : ℤ)
       | _ => 1) * 12
    else if containsSub "quarter".data lower then
      (match searchNumUnit "quarter".data false lower with
       | some (some n) => (n : ℤ)
       | _ => 1) * 3
    else if containsSub "week".data lower then
      match searchNumUnit "week".data false lower with
      | some (some n) => (((n + 3) / 4 : ℕ) : ℤ)
      | _ => 3
    else 12
  (renderYm (idxToYm (ymToIdx now - monthsBack)), renderYm now)

/-- Month index of `new Date(s + "-01")` when that date is valid:
`YYYY-M` or `YYYY-MM` with month 1..12 (V8 accepts the unpadded form via
its fallback parser); anything else is an Invalid Date. -/
def parseYmStr (s : String) : Option ℤ :=
  match parseDashDate s with
  | some (y, m) =>
    if 1 ≤ m ∧ m ≤ 12 then
      some (ymToIdx ((digitsToNat y.data : ℤ), (m : ℤ)))
    else none
  | none => none

/-- `Math.ceil(a / b)` for integers, any sign of `b`. -/
def intCeilDiv (a b : ℤ) : ℤ := -(Int.fdiv (-a) b)

/-- Whether `index % step === 0` keeps index `i`, where
`step = Math.ceil(len / maxPoints)`: `maxPoints = 0` gives `step =
Infinity` and `i % Infinity === 0` only at `i = 0`; a zero `step` (e.g.
`ceil` of a small negative quotient) gives `i % 0 = NaN`, keeping
nothing. -/
def jsModKeep (i : ℕ) (maxPoints len : ℤ) : Bool :=
  if maxPoints = 0 then i == 0
  else
    let st := intCeilDiv len maxPoints
    if st = 0 then false else (i : ℤ) % st == 0

/-- The `months.length > maxPoints` sampling step of `generateDateRange`. -/
def chartSample (months : List String) (maxPoints : ℤ) : List String :=
  if maxPoints < (months.length : ℤ) then
    (months.enum.filter
      (fun p => jsModKeep p.1 maxPoints (months.length : ℤ))).map (fun p => p.2)
  else months

/-- `generateDateRange`: all months from start to end inclusive (empty when
either endpoint is an Invalid Date or start is after end), then sampled. -/
def generateDateRange (s e : String) (maxPoints : ℤ) : List String :=
  match parseYmStr s, parseYmStr e with
  | some sIdx, some eIdx =>
    let months := (List.range (eIdx + 1 - sIdx).toNat).map
      (fun k => renderYm (idxToYm (sIdx + k)))
    chartSample months maxPoints
  | _, _ => []

/-- `yearMonth.split('-')` (split on every dash). -/
def splitDash : List Char → List (List Char)
  | [] => [[]]
  | c :: cs =>
    if c = '-' then [] :: splitDash cs
    else
      match splitDash cs with
      | [] => [[c]]
      | p :: ps => (c :: p) :: ps

/-- `` `${month}/${year}` `` after `const [year, month] = yearMonth.split('-')``
(a missing second part stringifies `undefined`). -/
def toJsonDate (ym : String) : String :=
  let parts := splitDash ym.data
  (⟨parts.getD 1 "undefined".data⟩ : String) ++ "/" ++ (⟨parts.getD 0 []⟩ : String)

/-- A model stand-in for `new Date(ym + "-01").getTime()`: the month index
(monotone in the true epoch milliseconds; 0 for Invalid Date's NaN). -/
def tsOf (ym : String) : ℤ := (parseYmStr ym).getD 0

/-- Price of `metal` at `ym` in the JSON data: symbol mapped through
`METAL_NAMES`, entry list looked up by name, then `find` on the
`MM/YYYY` rendering of `ym`; any miss is skipped (`continue`). -/
def lookupChartPrice (j : PreciousMetalsData) (metal ym : String) : Option ℚ :=
  match metalJsonName metal with
  | none => none
  | some mn =>
    match (j.find? (fun e => e.1 == mn)).map (fun e => e.2) with
    | none => none
    | some entries =>
      (entries.find? (fun pt => pt.date == toJsonDate ym)).map (fun pt => pt.price)

structure ChartDataPoint where
  date : String
  timestamp : ℤ
  prices : List (String × ℚ)

/-- The chart-data build loop: one point per range month carrying every
metal's found price, dropped when no metal has data for that month. -/
def chartPoints (j : PreciousMetalsData) (metals : List String)
    (dateRange : List String) : List ChartDataPoint :=
  dateRange.filterMap (fun ym =>
    let prices := metals.filterMap (fun metal =>
      (lookupChartPrice j metal ym).map (fun p => (metal, p)))
    if prices.isEmpty then none else some ⟨ym, tsOf ym, prices⟩)

structure ChartSummary where
  min : ℚ
  max : ℚ
  avg : ℚ
  change : ℚ
  changePercent : ℚ

/-- `parseFloat(x.toFixed(2))`: round to two decimals, ties toward `+oo`. -/
def round2 (q : ℚ) : ℚ := (roundHalfUp (q * 100) : ℚ) / 100

/-- Summary statistics per metal over the prices found in the range
(a first price of `0` makes `changePercent` JS `Infinity`; in this exact
model `x / 0 = 0` stands in for it, which no claim observes). -/
def chartSummary (j : PreciousMetalsData) (metals : List String)
    (dateRange : List String) : List (String × ChartSummary) :=
  metals.filterMap (fun metal =>
    match dateRange.filterMap (fun ym => lookupChartPrice j metal ym) with
    | [] => none
    | p :: ps =>
      let change := ps.getLastD p - p
      some (metal,
        { min := round2 (ps.foldl min p)
          max := round2 (ps.foldl max p)
          avg := round2 ((p :: ps).foldl (fun a b => a + b) 0 / ((p :: ps).length : ℚ))
          change := round2 change
          changePercent := round2 (change / p * 100) }))

structure ChartData where
  metals : List String
  currency : String
  startDate : String
  endDate : String
  dataPoints : List ChartDataPoint
  summary : List (String × ChartSummary)

structure TimeChartDataResult where
  success : Bool
  data : Option ChartData
  error : Option String

/-- `executeTimeChartDataTool`: after the file read everything is total
(per-metal errors are swallowed by the inner try/catch and `continue`),
so the only failure path is the `fileData` error. -/
def executeTimeChartDataTool (fileData : Except String PreciousMetalsData)
    (now : ℤ × ℤ) (metals : List String)
    (startDate endDate relativePeriod : Option String)
    (currency : String) (dataPoints : ℤ) : TimeChartDataResult :=
  match fileData with
  | .error e => ⟨false, none, some e⟩
  | .ok jsonData =>
    let range :=
      if optTruthy relativePeriod then chartParseRelative now (relativePeriod.getD "")
      else if optTruthy startDate && optTruthy endDate then
        (startDate.getD "", endDate.getD "")
      else if optTruthy startDate then (startDate.getD "", "2025-09")
      else chartParseRelative now "last 12 months"
    let dateRange := generateDateRange range.1 range.2 dataPoints
    ⟨true,
      some ⟨metals, currency, range.1, range.2,
        chartPoints jsonData metals dateRange,
        chartSummary jsonData metals dateRange⟩,
      none⟩

/-! ### Claim C1: success/failure dichotomy of every tool result -/

/-- A result record is exactly one of success-with-data (no error) or
failure-with-error (no data). -/
def exactlyOneOutcome {α : Type} (success : Bool) (data : Option α)
    (err : Option String) : Prop :=
  (success = true ∧ data.isSome = true ∧ err = none) ∨
  (success = false ∧ data = none ∧ err.isSome = true)

/-- C1: every tool execution function - spot price, weight value,
historical data, calculation, chart data - returns, for every input, a
record with `success = true`, a data payload present and no error, or
`success = false`, no data and an error message present; never both and
never neither. -/
theorem tool_result_dichotomy :
    (∀ key fetched nowIso metal currency,
      let r := executeSpotPriceTool key fetched nowIso metal currency
      exactlyOneOutcome r.success r.data r.error) ∧
    (∀ key fetched metal weight unit karat currency,
      let r := executeWeightValueTool key fetched metal weight unit karat currency
      exactlyOneOutcome r.success r.data r.error) ∧
    (∀ dataOrErr metal startDate endDate relativePeriod,
      let r := executeHistoricalDataTool dataOrErr metal startDate endDate relativePeriod
      exactlyOneOutcome r.success r.data r.error) ∧
    (∀ expression description,
      let r := executeCalculationTool expression description
      exactlyOneOutcome r.success r.data r.error) ∧
    (∀ fileData now metals startDate endDate relativePeriod currency dataPoints,
      let r := executeTimeChartDataTool fileData now metals startDate endDate
        relativePeriod currency dataPoints
      exactlyOneOutcome r.success r.data r.error) := by
  refine ⟨?_, ?_, ?_, ?_, ?_⟩
  · intro key fetched nowIso metal currency
    unfold executeSpotPriceTool
    dsimp only
    repeat' split
    all_goals simp [exactlyOneOutcome]
  · intro key fetched metal weight unit karat currency
    unfold executeWeightValueTool
    dsimp only
    repeat' split
    all_goals simp [exactlyOneOutcome]
  · intro dataOrErr metal startDate endDate relativePeriod
    unfold executeHistoricalDataTool
    dsimp only
    repeat' split
    all_goals simp [exactlyOneOutcome]
  · intro expression description
    unfold executeCalculationTool
    dsimp only
    repeat' split
    all_goals simp [exactlyOneOutcome]
  · intro fileData now metals startDate endDate relativePeriod currency dataPoints
    unfold executeTimeChartDataTool
    dsimp only
    repeat' split
    all_goals simp [exactlyOneOutcome]

end Goldbot
